import Mathlib

/-!
# Verification of the QoS pipeline (taskwork_python_qos)

Shallow embedding of the core pipeline stages of the repository:

* `_qos_transformations.py`: `transform_qos_data`, `create_full_time_grid`,
  `interpolate_consumption_curves`
* `_qos_metrics.py`: `create_product_inventory`,
  `calc_product_availability_ratio`, `calc_quality_of_service`

DataFrames are modelled as a list of typed rows together with the list of
column names (`Table`).  Numeric values are rationals (`ℚ`); nullable cells
(pandas `NaN`) are `Option` values.  Fallible functions return `Except Err`.

Modelling conventions, matching pandas semantics used by the source:

* `set(required) == set(df.columns)` is `eqAsSets`.
* `drop_duplicates` keeps the first occurrence of each row (`dropDuplicates`).
* `merge(validate='one_to_one')` checks that the merge keys are unique on both
  sides (and only that); `how='inner'` (the default) drops unmatched left
  rows, `how='left'` keeps them with null right columns.
* `groupby(...).agg` skips null keys and null values, as pandas does.
* `sort_values` is modelled by a stable merge sort; the source uses an
  unstable quicksort, but every theorem and concrete run below sorts lists
  whose sort keys are pairwise distinct, where the two coincide.
* Python `isinstance` checks (TypeError) are not representable in a typed
  embedding and are outside every claim settled here except by name; the
  typed rows presume the schema columns that the source reads without
  validating are present.
* Rational division is total (`x / 0 = 0`); the source would produce `inf`.
  No settled statement divides by zero.
-/

namespace QosSpec

/-- Error kinds of the pipeline: `TypeError`, `ValueError`,
`pandas.errors.MergeError` (the spec's RelationalIntegrityError) and
`KeyError`. -/
inductive Err where
  | typeError
  | valueError
  | mergeError
  | keyError
deriving DecidableEq, Repr

/-- A pandas DataFrame: its column names plus its rows (typed). -/
structure Table (ρ : Type) where
  cols : List String
  rows : List ρ
deriving DecidableEq, Repr

/-- Python `set(a) == set(b)` on column-name lists. -/
def eqAsSets (a b : List String) : Bool :=
  a.all (fun x => b.contains x) && b.all (fun x => a.contains x)

/-- Traversal of `dropDuplicates`: skip elements seen before. -/
def dropDupGo {α : Type} [DecidableEq α] (seen : List α) : List α → List α
  | [] => []
  | x :: xs => if x ∈ seen then dropDupGo seen xs else x :: dropDupGo (x :: seen) xs

/-- pandas `drop_duplicates`: keep the first occurrence of each element. -/
def dropDuplicates {α : Type} [DecidableEq α] (l : List α) : List α :=
  dropDupGo [] l

instance {ε α : Type} [DecidableEq ε] [DecidableEq α] : DecidableEq (Except ε α)
  | .ok x, .ok y =>
    if h : x = y then .isTrue (by rw [h]) else .isFalse (by simp [h])
  | .ok _, .error _ => .isFalse (by simp)
  | .error _, .ok _ => .isFalse (by simp)
  | .error e, .error f =>
    if h : e = f then .isTrue (by rw [h]) else .isFalse (by simp [h])

/-- Association-list lookup (most recent binding first). -/
def alookup {κ β : Type} [DecidableEq κ] (k : κ) : List (κ × β) → Option β
  | [] => none
  | (k', v) :: rest => if k' = k then some v else alookup k rest

/-- NaN-propagating product of two nullable cells. -/
def optMul (a b : Option ℚ) : Option ℚ :=
  match a, b with
  | some x, some y => some (x * y)
  | _, _ => none

/-! ## Row types of the pipeline tables -/

/-- A row of `qos_data.csv`: `DATE`, `LOCATION`, `PRODUCT`,
`INVENTORY_CURVE_ID`, `CONSUMPTION_PROFILE_CURVE_ID`. -/
structure QosDataRow where
  date : String
  location : String
  product : String
  inventory_curve_id : Nat
  consumption_profile_curve_id : Nat
deriving DecidableEq, Repr

/-- A `qos_data` row after the in-place `drop(columns='DATE')`. -/
structure DemandRow where
  location : String
  product : String
  inventory_curve_id : Nat
  consumption_profile_curve_id : Nat
deriving DecidableEq, Repr

/-- A row of `qos_curves.csv`: `CURVE_ID`, `CURVE_TYPE`, `WEEK_START`,
`X` (list of minutes), `Y` (list of values). -/
structure QosCurveRow where
  curve_id : Nat
  curve_type : String
  week_start : String
  X : List Int
  Y : List ℚ
deriving DecidableEq, Repr

/-- A row of the `inventory_curves` output of `transform_qos_data`. -/
structure InvCurveRow where
  location : String
  product : String
  inventory_curve_id : Nat
  consumption_profile_curve_id : Nat
  week_start : String
  X : List Int
  Y : List ℚ
deriving DecidableEq, Repr

/-- A row of the `consumption_curves` output of `transform_qos_data`. -/
structure ConsCurveRow where
  location : String
  consumption_profile_curve_id : Nat
  week_start : String
  X : List Int
  Y : List ℚ
deriving DecidableEq, Repr

/-- A row of the `time_point_grid` built by `create_full_time_grid`. -/
structure TpgRow where
  location : String
  consumption_profile_curve_id : Nat
  week_start : String
  x : Int
deriving DecidableEq, Repr

/-! ## `transform_qos_data` (`_qos_transformations.py`, lines 5-82) -/

/-- `qos_data.drop(columns='DATE', inplace=True)` on one row. -/
def QosDataRow.toDemand (r : QosDataRow) : DemandRow :=
  ⟨r.location, r.product, r.inventory_curve_id, r.consumption_profile_curve_id⟩

/-- `transform_qos_data`.  Returns the two curve tables *and* the post-call
state of `qos_data`, which the source mutates in place (drops `DATE`,
de-duplicates).  The two merges are inner joins (`how` is left at its
default) with `validate='one_to_one'`, which raises `MergeError` exactly
when a merge key repeats on either side. -/
def transform_qos_data (qos_data : Table QosDataRow) (qos_curves : Table QosCurveRow) :
    Except Err (Table InvCurveRow × Table ConsCurveRow × Table DemandRow) :=
  if ¬ qos_data.cols.contains "DATE" then .error .keyError else
  let qd2cols := qos_data.cols.filter (fun c => c ≠ "DATE")
  let qd2 := dropDuplicates (qos_data.rows.map QosDataRow.toDemand)
  -- inventory split and merge on INVENTORY_CURVE_ID = CURVE_ID
  let invC := qos_curves.rows.filter (fun c => c.curve_type = "inventory")
  if ¬ ((qd2.map (fun d => d.inventory_curve_id)).Nodup ∧
        (invC.map (fun c => c.curve_id)).Nodup) then .error .mergeError else
  let inventory_curves : List InvCurveRow := qd2.flatMap fun d =>
    (invC.filter (fun c => c.curve_id = d.inventory_curve_id)).map fun c =>
      ⟨d.location, d.product, d.inventory_curve_id, d.consumption_profile_curve_id,
        c.week_start, c.X, c.Y⟩
  -- consumption split and merge on CONSUMPTION_PROFILE_CURVE_ID = CURVE_ID
  let consC := qos_curves.rows.filter (fun c => c.curve_type = "consumption_profile")
  let location_consumption := dropDuplicates
    (qd2.map (fun d => (d.location, d.consumption_profile_curve_id)))
  if ¬ ((location_consumption.map (fun p => p.2)).Nodup ∧
        (consC.map (fun c => c.curve_id)).Nodup) then .error .mergeError else
  let consumption_curves : List ConsCurveRow := location_consumption.flatMap fun p =>
    (consC.filter (fun c => c.curve_id = p.2)).map fun c =>
      ⟨p.1, p.2, c.week_start, c.X, c.Y⟩
  let dropTC := fun (c : String) => c ≠ "CURVE_TYPE" ∧ c ≠ "CURVE_ID"
  .ok (⟨(qd2cols ++ qos_curves.cols).filter dropTC, inventory_curves⟩,
       ⟨(["LOCATION", "CONSUMPTION_PROFILE_CURVE_ID"] ++ qos_curves.cols).filter dropTC,
        consumption_curves⟩,
       ⟨qd2cols, qd2⟩)

/-! ## `create_full_time_grid` (`_qos_transformations.py`, lines 84-132) -/

/-- Required columns of the `create_full_time_grid` input check. -/
def requiredColsCftg : List String :=
  ["LOCATION", "CONSUMPTION_PROFILE_CURVE_ID", "WEEK_START", "X", "Y"]

/-- `create_full_time_grid`: selects (LOCATION, CONSUMPTION_PROFILE_CURVE_ID,
WEEK_START) of every row (no de-duplication in the source) and cross-joins
with `range(10080)`. -/
def create_full_time_grid (consumption_curves : Table ConsCurveRow) :
    Except Err (Table TpgRow) :=
  if ¬ eqAsSets requiredColsCftg consumption_curves.cols then .error .valueError else
  .ok ⟨["LOCATION", "CONSUMPTION_PROFILE_CURVE_ID", "WEEK_START", "X"],
    consumption_curves.rows.flatMap fun r =>
      (List.range 10080).map fun (x : Nat) =>
        ⟨r.location, r.consumption_profile_curve_id, r.week_start, (x : Int)⟩⟩

/-! ## Generic table operations: sorting, group-by, forward fill -/

/-- Insert into a sorted list, after all elements it does not strictly
precede (stable). -/
def insertSorted {α : Type} (le : α → α → Bool) (a : α) : List α → List α
  | [] => [a]
  | b :: bs => if le a b then a :: b :: bs else b :: insertSorted le a bs

/-- Stable insertion sort modelling `DataFrame.sort_values`.  (The source
uses pandas' default unstable quicksort; all uses below sort by keys that
are pairwise distinct, where every comparison sort agrees.) -/
def sortValues {α : Type} (le : α → α → Bool) : List α → List α
  | [] => []
  | a :: as => insertSorted le a (sortValues le as)

/-- The distinct group keys of `rows`, in order of first appearance. -/
def groupKeys {ρ κ : Type} [DecidableEq κ] (keyf : ρ → κ) (rows : List ρ) : List κ :=
  dropDuplicates (rows.map keyf)

/-- pandas `groupby(keys)[col].sum()`: one entry per distinct key, summing
the non-null column values of that key's rows (pandas skips NaN). -/
def groupSum {ρ κ : Type} [DecidableEq κ] (keyf : ρ → κ) (valf : ρ → Option ℚ)
    (rows : List ρ) : List (κ × ℚ) :=
  (groupKeys keyf rows).map fun k =>
    (k, ((rows.filter (fun r => keyf r = k)).filterMap valf).sum)

/-- pandas `groupby(keys)[col].nunique()`: the number of distinct non-null
column values per key. -/
def groupNunique {ρ κ α : Type} [DecidableEq κ] [DecidableEq α] (keyf : ρ → κ)
    (valf : ρ → Option α) (rows : List ρ) : List (κ × Nat) :=
  (groupKeys keyf rows).map fun k =>
    (k, (dropDuplicates ((rows.filter (fun r => keyf r = k)).filterMap valf)).length)

/-- pandas `groupby(key)[col].ffill()` traversal: carries the last non-null
column value per group key; rows with a null group key are excluded from
every group (`dropna=True`) and get a null result. -/
def ffillGo {ρ κ β : Type} [DecidableEq κ] (key : ρ → Option κ) (get : ρ → Option β)
    (set : ρ → Option β → ρ) (acc : List (κ × β)) : List ρ → List ρ
  | [] => []
  | r :: rest =>
    match key r with
    | none => set r none :: ffillGo key get set acc rest
    | some k =>
      match get r with
      | some v => set r (some v) :: ffillGo key get set ((k, v) :: acc) rest
      | none => set r (alookup k acc) :: ffillGo key get set acc rest

/-- pandas `groupby(key)[col].ffill()` in the order the rows stand. -/
def ffillBy {ρ κ β : Type} [DecidableEq κ] (key : ρ → Option κ) (get : ρ → Option β)
    (set : ρ → Option β → ρ) (l : List ρ) : List ρ :=
  ffillGo key get set [] l

/-- Lexicographic comparison of a (LOCATION, WEEK_START, X) sort key. -/
def leLWX (a b : String × String × Int) : Bool :=
  if a.1 ≠ b.1 then a.1 < b.1
  else if a.2.1 ≠ b.2.1 then a.2.1 < b.2.1
  else a.2.2 ≤ b.2.2

/-! ## Boundary validation and `explode` (shared by
`create_product_inventory` and `interpolate_consumption_curves`) -/

/-- The two `X.apply(min) != 0` / `X.apply(max) != 10079` row filters
(`_qos_metrics.py` lines 52-57, `_qos_transformations.py` lines 155-160);
`min`/`max` of an empty Python list also raise ValueError. -/
def checkBoundaries (xss : List (List Int)) : Except Err Unit :=
  if xss.any (fun xs => xs.min? ≠ some 0) then .error .valueError
  else if xss.any (fun xs => xs.max? ≠ some 10079) then .error .valueError
  else .ok ()

/-! ## `create_product_inventory` (`_qos_metrics.py`, lines 3-94) -/

/-- An exploded inventory-curve sample: one (minute, value) pair. -/
structure InvPoint where
  location : String
  product : String
  inventory_curve_id : Nat
  consumption_profile_curve_id : Nat
  week_start : String
  x : Int
  y : ℚ
deriving DecidableEq, Repr

/-- Row-wise traversal of `df.explode(list('XY'))`: concatenates the
per-row explosions, failing if any row fails. -/
def explodeList {α β : Type} (f : α → Except Err (List β)) : List α → Except Err (List β)
  | [] => .ok []
  | r :: rest =>
    match f r, explodeList f rest with
    | .error e, _ => .error e
    | .ok _, .error e => .error e
    | .ok ps, .ok qs => .ok (ps ++ qs)

/-- The sample points of one inventory row. -/
def invPoints (r : InvCurveRow) : List InvPoint :=
  (r.X.zip r.Y).map fun p =>
    ⟨r.location, r.product, r.inventory_curve_id, r.consumption_profile_curve_id,
      r.week_start, p.1, p.2⟩

/-- `df.explode(list('XY'))` on one inventory row; unequal `X`/`Y` lengths
raise ValueError ("columns must have matching element counts"). -/
def explodeInvRow (r : InvCurveRow) : Except Err (List InvPoint) :=
  if r.X.length = r.Y.length then .ok (invPoints r) else .error .valueError

/-- A curve identity: a row of the `curve_ids` frame. -/
structure CurveIdRow where
  location : String
  inventory_curve_id : Nat
  product : String
  week_start : String
deriving DecidableEq, Repr

/-- A row of the `time_points` frame. -/
structure TimePointRow where
  location : String
  week_start : String
  x : Int
deriving DecidableEq, Repr

/-- A row of the product inventory grid.  `ident` holds the
`INVENTORY_CURVE_ID` and `PRODUCT` cells (null when the first left join
found no curve identity at the row's location/week); `cpc`
(`CONSUMPTION_PROFILE_CURVE_ID`) and `y` come from the second left join. -/
structure PigRow where
  location : String
  week_start : String
  x : Int
  ident : Option (Nat × String)
  cpc : Option Nat
  y : Option ℚ
deriving DecidableEq, Repr

/-- The sort key of `sort_values(by=['INVENTORY_CURVE_ID', 'X'])`; pandas
places null keys last (`na_position='last'`). -/
def lePig (a b : PigRow) : Bool :=
  let ka := a.ident.map Prod.fst
  let kb := b.ident.map Prod.fst
  if ka = kb then a.x ≤ b.x
  else match ka, kb with
    | some m, some n => m < n
    | some _, none => true
    | none, _ => false

/-- Required columns of `create_product_inventory` (also of the
`product_inventory_grid` input of `calc_product_availability_ratio`). -/
def requiredColsInv : List String :=
  ["LOCATION", "PRODUCT", "INVENTORY_CURVE_ID", "CONSUMPTION_PROFILE_CURVE_ID",
   "WEEK_START", "X", "Y"]

/-- The `curve_ids` frame (line 64): distinct
(LOCATION, INVENTORY_CURVE_ID, PRODUCT, WEEK_START) of the exploded rows. -/
def invCurveIds (exploded : List InvPoint) : List CurveIdRow :=
  dropDuplicates (exploded.map fun p =>
    ⟨p.location, p.inventory_curve_id, p.product, p.week_start⟩)

/-- The `time_points` frame (line 69): distinct (LOCATION, WEEK_START, X). -/
def invTimePoints (exploded : List InvPoint) : List TimePointRow :=
  dropDuplicates (exploded.map fun p => ⟨p.location, p.week_start, p.x⟩)

/-- The `time_point_grid` (line 70): left join of the time points with the
curve identities on (LOCATION, WEEK_START). -/
def invTimePointGrid (exploded : List InvPoint) : List PigRow :=
  (invTimePoints exploded).flatMap fun tp =>
    let ms := (invCurveIds exploded).filter fun c =>
      c.location = tp.location ∧ c.week_start = tp.week_start
    if ms.isEmpty then [⟨tp.location, tp.week_start, tp.x, none, none, none⟩]
    else ms.map fun c =>
      ⟨tp.location, tp.week_start, tp.x, some (c.inventory_curve_id, c.product),
        none, none⟩

/-- The `product_inventory_grid` before filling (line 77): left join of the
grid with the exploded rows on (LOCATION, INVENTORY_CURVE_ID, WEEK_START,
PRODUCT, X); a null identity matches no exploded row. -/
def invJoined (exploded : List InvPoint) : List PigRow :=
  (invTimePointGrid exploded).flatMap fun g =>
    match g.ident with
    | none => [g]
    | some cp =>
      let ms := exploded.filter fun e =>
        e.location = g.location ∧ e.inventory_curve_id = cp.1 ∧
          e.week_start = g.week_start ∧ e.product = cp.2 ∧ e.x = g.x
      if ms.isEmpty then [g]
      else ms.map fun e =>
        { g with cpc := some e.consumption_profile_curve_id, y := some e.y }

/-- Lines 85-92: sort by (INVENTORY_CURVE_ID, X), forward-fill `Y` per
INVENTORY_CURVE_ID and `CONSUMPTION_PROFILE_CURVE_ID` per
(LOCATION, WEEK_START). -/
def invFilled (exploded : List InvPoint) : List PigRow :=
  let sorted := sortValues lePig (invJoined exploded)
  let filledY := ffillBy (fun r => r.ident.map Prod.fst) (fun r => r.y)
    (fun r v => { r with y := v }) sorted
  ffillBy (fun r => some (r.location, r.week_start)) (fun r => r.cpc)
    (fun r v => { r with cpc := v }) filledY

/-- `create_product_inventory`: validates columns and week boundaries,
explodes the sample lists, builds the (time point × curve identity) grid by
two left joins, sorts and forward-fills. -/
def create_product_inventory (inventory_curves : Table InvCurveRow) :
    Except Err (Table PigRow) :=
  if ¬ eqAsSets requiredColsInv inventory_curves.cols then .error .valueError else
  match checkBoundaries (inventory_curves.rows.map (fun r => r.X)) with
  | .error e => .error e
  | .ok _ =>
  match explodeList explodeInvRow inventory_curves.rows with
  | .error e => .error e
  | .ok exploded =>
    .ok ⟨["LOCATION", "WEEK_START", "X", "INVENTORY_CURVE_ID", "PRODUCT"] ++
          inventory_curves.cols.filter
            (fun c => c = "CONSUMPTION_PROFILE_CURVE_ID" ∨ c = "Y"),
        invFilled exploded⟩

/-! ## `calc_product_availability_ratio` (`_qos_metrics.py`, lines 96-209) -/

/-- The `PRODUCT` cell of a grid row (null when the identity is null). -/
def PigRow.product (r : PigRow) : Option String := r.ident.map Prod.snd

/-- The `PRODUCT_IN_STOCK` indicator `(Y >= 1).astype(int)`
(`NaN >= 1` is false in pandas). -/
def PigRow.inStock (r : PigRow) : ℚ :=
  match r.y with
  | some v => if 1 ≤ v then 1 else 0
  | none => 0

/-- Required columns of the `time_point_grid` input of
`calc_product_availability_ratio`. -/
def requiredColsTpg : List String :=
  ["LOCATION", "CONSUMPTION_PROFILE_CURVE_ID", "WEEK_START", "X"]

/-- A row of the `product_availability_ratio` output; `pa` is the
`PA_RATIO` column. -/
structure ParRow where
  location : String
  consumption_profile_curve_id : Nat
  week_start : String
  x : Int
  pa : Option ℚ
deriving DecidableEq, Repr

/-- An intermediate `par_data` row before the merge onto the grid. -/
structure ParDataRow where
  location : String
  week_start : String
  x : Int
  product_in_stock : ℚ
  total_product_count : Option Nat
  pa : Option ℚ
deriving DecidableEq, Repr

/-- `calc_product_availability_ratio`.  Returns the output table *and* the
post-call state of `product_inventory_grid`, to which the source adds the
`PRODUCT_IN_STOCK` column in place (line 169).  The first merge is
`how='left', validate='many_to_one'` (right keys come from a group-by, so
they are unique and that check cannot fail); the second is
`how='left', validate='one_to_one'`, modelled as a key-uniqueness check
followed by a lookup. -/
def parDistinctProducts (pig : List PigRow) : List ((String × String) × Nat) :=
  groupNunique (fun r => (r.week_start, r.location)) (fun r => r.product) pig

/-- The in-place `PRODUCT_IN_STOCK` column added to the input grid. -/
def parStock (pig : List PigRow) : List (PigRow × ℚ) :=
  pig.map fun r => (r, r.inStock)

def parInStock (pig : List PigRow) : List ((String × String × Int) × ℚ) :=
  groupSum (fun p : PigRow × ℚ => (p.1.location, p.1.week_start, p.1.x))
    (fun p => some p.2) (parStock pig)

/-- The `par_data` frame after the many-to-one merge with the product
totals and the `PA_RATIO` division (lines 179-186). -/
def parData (pig : List PigRow) : List ParDataRow :=
  (parInStock pig).map fun s =>
    let total := alookup (s.1.2.1, s.1.1) (parDistinctProducts pig)
    ⟨s.1.1, s.1.2.1, s.1.2.2, s.2, total, total.map (fun t => s.2 / (t : ℚ))⟩

/-- The one-to-one left merge of `par_data` onto the grid (line 189), with
the dropped helper columns already projected away. -/
def parMerged (pig : List PigRow) (tpg : List TpgRow) : List ParRow :=
  let parAssoc := (parData pig).map fun d => ((d.location, d.week_start, d.x), d.pa)
  tpg.map fun t =>
    ⟨t.location, t.consumption_profile_curve_id, t.week_start, t.x,
      (alookup (t.location, t.week_start, t.x) parAssoc).join⟩

/-- Lines 200-207: sort by (LOCATION, WEEK_START, X) and forward-fill
`PA_RATIO` per (LOCATION, WEEK_START). -/
def parFilled (pig : List PigRow) (tpg : List TpgRow) : List ParRow :=
  ffillBy (fun r : ParRow => some (r.location, r.week_start))
    (fun r => r.pa) (fun r v => { r with pa := v })
    (sortValues
      (fun a b => leLWX (a.location, a.week_start, a.x) (b.location, b.week_start, b.x))
      (parMerged pig tpg))

def calc_product_availability_ratio (product_inventory_grid : Table PigRow)
    (time_point_grid : Table TpgRow) :
    Except Err (Table ParRow × Table (PigRow × ℚ)) :=
  if ¬ eqAsSets requiredColsInv product_inventory_grid.cols then .error .valueError else
  if ¬ eqAsSets requiredColsTpg time_point_grid.cols then .error .valueError else
  let pig := product_inventory_grid.rows
  if ¬ ((parDistinctProducts pig).map Prod.fst).Nodup then .error .mergeError else
  if ¬ ((time_point_grid.rows.map (fun t => (t.location, t.week_start, t.x))).Nodup ∧
        ((parData pig).map (fun d => (d.location, d.week_start, d.x))).Nodup) then
    .error .mergeError else
  .ok (⟨time_point_grid.cols ++ ["PA_RATIO"], parFilled pig time_point_grid.rows⟩,
       ⟨product_inventory_grid.cols ++ ["PRODUCT_IN_STOCK"], parStock pig⟩)

/-! ## `interpolate_consumption_curves` (`_qos_transformations.py`,
lines 135-180) -/

/-- An exploded consumption-curve sample. -/
structure ConsPoint where
  location : String
  consumption_profile_curve_id : Nat
  week_start : String
  x : Int
  y : ℚ
deriving DecidableEq, Repr

/-- The sample points of one consumption row. -/
def consPoints (r : ConsCurveRow) : List ConsPoint :=
  (r.X.zip r.Y).map fun p =>
    ⟨r.location, r.consumption_profile_curve_id, r.week_start, p.1, p.2⟩

/-- `df.explode(list('XY'))` on one consumption row. -/
def explodeConsRow (r : ConsCurveRow) : Except Err (List ConsPoint) :=
  if r.X.length = r.Y.length then .ok (consPoints r) else .error .valueError

/-- A grid row after the left join of the exploded consumption samples. -/
structure MergedConsRow where
  location : String
  consumption_profile_curve_id : Nat
  week_start : String
  x : Int
  y : Option ℚ
deriving DecidableEq, Repr

/-- Offset and value of the first non-null entry of the list. -/
def findNextVal : List (Option ℚ) → Option (Nat × ℚ)
  | [] => none
  | some v :: _ => some (0, v)
  | none :: rest => (findNextVal rest).map fun p => (p.1 + 1, p.2)

/-- One step of `Series.interpolate(method='linear')` (positional: "ignore
the index and treat the values as equally spaced"): `last` is the position
and value of the closest preceding non-null entry. -/
def interpGo (last : Option (Nat × ℚ)) (i : Nat) : List (Option ℚ) → List (Option ℚ)
  | [] => []
  | some v :: rest => some v :: interpGo (some (i, v)) (i + 1) rest
  | none :: rest =>
    (match last with
     | none => none          -- nulls before the first value stay null
     | some p =>
       match findNextVal rest with
       | some q =>
         some (p.2 + (q.2 - p.2) * ((i : ℚ) - p.1) / (((i + q.1 + 1 : Nat) : ℚ) - p.1))
       | none => some p.2    -- nulls after the last value repeat it
    ) :: interpGo last (i + 1) rest

/-- `Series.interpolate(method='linear')` with the default
`limit_direction='forward'`. -/
def interpLin (l : List (Option ℚ)) : List (Option ℚ) := interpGo none 0 l

/-- A row of the interpolated consumption curves; `consumption_y` is the
`CONSUMPTION_Y` column. -/
structure CciRow where
  location : String
  consumption_profile_curve_id : Nat
  week_start : String
  x : Int
  consumption_y : Option ℚ
deriving DecidableEq, Repr

/-- The left join of the exploded consumption samples onto the grid
(line 165). -/
def consMerged (exploded : List ConsPoint) (tpg : List TpgRow) : List MergedConsRow :=
  tpg.flatMap fun t =>
    let ms := exploded.filter fun e =>
      e.location = t.location ∧
        e.consumption_profile_curve_id = t.consumption_profile_curve_id ∧
        e.week_start = t.week_start ∧ e.x = t.x
    if ms.isEmpty then
      [⟨t.location, t.consumption_profile_curve_id, t.week_start, t.x, none⟩]
    else ms.map fun e =>
      ⟨t.location, t.consumption_profile_curve_id, t.week_start, t.x, some e.y⟩

/-- Line 171: sort the merged frame by (LOCATION, WEEK_START, X). -/
def consSorted (exploded : List ConsPoint) (tpg : List TpgRow) : List MergedConsRow :=
  sortValues
    (fun a b => leLWX (a.location, a.week_start, a.x) (b.location, b.week_start, b.x))
    (consMerged exploded tpg)

/-- Lines 174-178: interpolate the whole sorted `Y` column positionally,
store it as `CONSUMPTION_Y` and drop `Y`. -/
def consInterp (exploded : List ConsPoint) (tpg : List TpgRow) : List CciRow :=
  let sorted := consSorted exploded tpg
  (sorted.zip (interpLin (sorted.map fun r => r.y))).map fun p =>
    ⟨p.1.location, p.1.consumption_profile_curve_id, p.1.week_start, p.1.x, p.2⟩

/-- `interpolate_consumption_curves`: validates week boundaries (only — the
source has no column or type check here), explodes the samples, left-joins
them onto the grid, sorts by (LOCATION, WEEK_START, X) — note: not by
CONSUMPTION_PROFILE_CURVE_ID — and linearly interpolates the whole `Y`
column positionally. -/
def interpolate_consumption_curves (consumption_curves : Table ConsCurveRow)
    (time_point_grid : Table TpgRow) : Except Err (Table CciRow) :=
  match checkBoundaries (consumption_curves.rows.map (fun r => r.X)) with
  | .error e => .error e
  | .ok _ =>
  match explodeList explodeConsRow consumption_curves.rows with
  | .error e => .error e
  | .ok exploded =>
    .ok ⟨time_point_grid.cols ++ ["CONSUMPTION_Y"],
      consInterp exploded time_point_grid.rows⟩

/-! ## `calc_quality_of_service` (`_qos_metrics.py`, lines 211-266) -/

/-- Required columns of the `consumption_curves_interp` input. -/
def requiredColsCci : List String :=
  ["LOCATION", "CONSUMPTION_PROFILE_CURVE_ID", "WEEK_START", "X", "CONSUMPTION_Y"]

/-- Required columns of the `product_availability_ratio` input. -/
def requiredColsPar : List String :=
  ["LOCATION", "CONSUMPTION_PROFILE_CURVE_ID", "WEEK_START", "X", "PA_RATIO"]

/-- A row of the final QoS output: index (LOCATION, WEEK_START), column
`QOS`. -/
structure QosRow where
  location : String
  week_start : String
  qos : ℚ
deriving DecidableEq, Repr

/-- The merge key of `calc_quality_of_service`. -/
def cciKey (r : CciRow) : String × Nat × String × Int :=
  (r.location, r.consumption_profile_curve_id, r.week_start, r.x)

/-- The merge key on the availability side. -/
def parKey (r : ParRow) : String × Nat × String × Int :=
  (r.location, r.consumption_profile_curve_id, r.week_start, r.x)

/-- The one-to-one left merge of the two series (line 255): each cci row
paired with the `PA_RATIO` of the par row of the same key (null if
unmatched). -/
def qosMerged (cci : List CciRow) (par : List ParRow) : List (CciRow × Option ℚ) :=
  cci.map fun r => (r, (alookup (cciKey r) (par.map fun p => (parKey p, p.pa))).join)

/-- The per-row `QOS = PA_RATIO * CONSUMPTION_Y` summed within
(LOCATION, WEEK_START) (lines 262-263). -/
def qosRows (cci : List CciRow) (par : List ParRow) : List ((String × String) × ℚ) :=
  groupSum (fun p : CciRow × Option ℚ => (p.1.location, p.1.week_start))
    (fun p => optMul p.2 p.1.consumption_y) (qosMerged cci par)

/-- `calc_quality_of_service`: merges the two per-minute series
(`how='left', validate='one_to_one'`), multiplies `PA_RATIO` by
`CONSUMPTION_Y` per row and sums within (LOCATION, WEEK_START). -/
def calc_quality_of_service (consumption_curves_interp : Table CciRow)
    (product_availability_ratio : Table ParRow) : Except Err (Table QosRow) :=
  if ¬ eqAsSets requiredColsCci consumption_curves_interp.cols then .error .valueError else
  if ¬ eqAsSets requiredColsPar product_availability_ratio.cols then .error .valueError else
  let cci := consumption_curves_interp.rows
  let par := product_availability_ratio.rows
  if ¬ ((cci.map cciKey).Nodup ∧ (par.map parKey).Nodup) then .error .mergeError else
  .ok ⟨["QOS"], (qosRows cci par).map fun p => ⟨p.1.1, p.1.2, p.2⟩⟩

/-! ## Library lemmas: `dropDuplicates`, `sortValues`, `alookup` -/

theorem mem_dropDupGo {α : Type} [DecidableEq α] {a : α} :
    ∀ {l seen : List α}, a ∈ dropDupGo seen l ↔ a ∈ l ∧ a ∉ seen := by
  intro l
  induction l with
  | nil => intro seen; simp [dropDupGo]
  | cons x xs ih =>
    intro seen
    by_cases hx : x ∈ seen
    · simp only [dropDupGo, if_pos hx, ih, List.mem_cons]
      constructor
      · rintro ⟨h1, h2⟩; exact ⟨Or.inr h1, h2⟩
      · rintro ⟨h1 | h1, h2⟩
        · exact absurd (h1 ▸ hx) h2
        · exact ⟨h1, h2⟩
    · simp only [dropDupGo, if_neg hx, List.mem_cons, ih, not_or]
      constructor
      · rintro (rfl | ⟨h1, h2⟩)
        · exact ⟨Or.inl rfl, hx⟩
        · exact ⟨Or.inr h1, h2.2⟩
      · rintro ⟨rfl | h1, h2⟩
        · exact Or.inl rfl
        · by_cases hax : a = x
          · exact Or.inl hax
          · exact Or.inr ⟨h1, hax, h2⟩

theorem mem_dropDuplicates {α : Type} [DecidableEq α] {a : α} {l : List α} :
    a ∈ dropDuplicates l ↔ a ∈ l := by
  simp [dropDuplicates, mem_dropDupGo]

theorem nodup_dropDupGo {α : Type} [DecidableEq α] :
    ∀ {l seen : List α}, (dropDupGo seen l).Nodup := by
  intro l
  induction l with
  | nil => intro seen; simp [dropDupGo]
  | cons x xs ih =>
    intro seen
    by_cases hx : x ∈ seen
    · simpa [dropDupGo, if_pos hx] using ih
    · simp only [dropDupGo, if_neg hx, List.nodup_cons]
      exact ⟨fun hmem => (mem_dropDupGo.1 hmem).2 (List.mem_cons_self x _), ih⟩

theorem nodup_dropDuplicates {α : Type} [DecidableEq α] (l : List α) :
    (dropDuplicates l).Nodup :=
  nodup_dropDupGo

theorem dropDupGo_eq_self {α : Type} [DecidableEq α] :
    ∀ {l seen : List α}, l.Nodup → (∀ a ∈ l, a ∉ seen) → dropDupGo seen l = l := by
  intro l
  induction l with
  | nil => intro seen _ _; rfl
  | cons x xs ih =>
    intro seen hnd hdisj
    have hx : x ∉ seen := hdisj x (List.mem_cons_self x xs)
    simp only [dropDupGo, if_neg hx, List.cons.injEq, true_and]
    refine ih (List.nodup_cons.1 hnd).2 ?_
    intro a ha
    simp only [List.mem_cons, not_or]
    exact ⟨fun h => (List.nodup_cons.1 hnd).1 (h ▸ ha), hdisj a (List.mem_cons_of_mem _ ha)⟩

theorem dropDuplicates_eq_self {α : Type} [DecidableEq α] {l : List α} (h : l.Nodup) :
    dropDuplicates l = l :=
  dropDupGo_eq_self h (by simp)

theorem perm_insertSorted {α : Type} (le : α → α → Bool) (a : α) :
    ∀ l : List α, (insertSorted le a l).Perm (a :: l) := by
  intro l
  induction l with
  | nil => simp [insertSorted]
  | cons b bs ih =>
    by_cases h : le a b
    · simp [insertSorted, h]
    · simp only [insertSorted, if_neg h]
      exact (ih.cons b).trans (List.Perm.swap a b bs)

theorem perm_sortValues {α : Type} (le : α → α → Bool) :
    ∀ l : List α, (sortValues le l).Perm l := by
  intro l
  induction l with
  | nil => simp [sortValues]
  | cons a as ih => exact (perm_insertSorted le a _).trans (ih.cons a)

theorem mem_sortValues {α : Type} {le : α → α → Bool} {a : α} {l : List α} :
    a ∈ sortValues le l ↔ a ∈ l :=
  (perm_sortValues le l).mem_iff

theorem length_sortValues {α : Type} (le : α → α → Bool) (l : List α) :
    (sortValues le l).length = l.length :=
  (perm_sortValues le l).length_eq

theorem pairwise_insertSorted {α : Type} {le : α → α → Bool}
    (htrans : ∀ a b c, le a b = true → le b c = true → le a c = true)
    (htot : ∀ a b, (le a b || le b a) = true) (a : α) :
    ∀ {l : List α}, l.Pairwise (fun x y => le x y = true) →
      (insertSorted le a l).Pairwise (fun x y => le x y = true) := by
  intro l
  induction l with
  | nil => intro _; simp [insertSorted]
  | cons b bs ih =>
    intro hp
    rw [List.pairwise_cons] at hp
    by_cases h : le a b = true
    · simp only [insertSorted, if_pos h, List.pairwise_cons]
      refine ⟨?_, hp.1, hp.2⟩
      intro c hc
      rcases List.mem_cons.1 hc with rfl | hc2
      · exact h
      · exact htrans a b c h (hp.1 c hc2)
    · have hba : le b a = true := by
        have h2 := htot a b
        simp only [Bool.or_eq_true] at h2
        rcases h2 with h1 | h1
        · exact absurd h1 h
        · exact h1
      simp only [insertSorted, if_neg h, List.pairwise_cons]
      refine ⟨?_, ih hp.2⟩
      intro c hc
      rcases List.mem_cons.1 ((perm_insertSorted le a bs).mem_iff.1 hc) with rfl | hc2
      · exact hba
      · exact hp.1 c hc2

theorem pairwise_sortValues {α : Type} {le : α → α → Bool}
    (htrans : ∀ a b c, le a b = true → le b c = true → le a c = true)
    (htot : ∀ a b, (le a b || le b a) = true) (l : List α) :
    (sortValues le l).Pairwise (fun x y => le x y = true) := by
  induction l with
  | nil => simp [sortValues]
  | cons a as ih => exact pairwise_insertSorted htrans htot a ih

theorem alookup_eq_none {κ β : Type} [DecidableEq κ] {k : κ} :
    ∀ {l : List (κ × β)}, k ∉ l.map Prod.fst → alookup k l = none := by
  intro l
  induction l with
  | nil => intro _; rfl
  | cons p rest ih =>
    intro h
    simp only [List.map_cons, List.mem_cons, not_or] at h
    cases p with
    | mk k' v =>
      simp only [alookup, if_neg (fun he : k' = k => h.1 he.symm)]
      exact ih h.2

theorem alookup_mem {κ β : Type} [DecidableEq κ] {k : κ} {v : β} :
    ∀ {l : List (κ × β)}, alookup k l = some v → (k, v) ∈ l := by
  intro l
  induction l with
  | nil => intro h; simp [alookup] at h
  | cons p rest ih =>
    intro h
    cases p with
    | mk k' w =>
      by_cases hk : k' = k
      · simp only [alookup, if_pos hk] at h
        cases h; cases hk
        exact List.mem_cons_self _ _
      · simp only [alookup, if_neg hk] at h
        exact List.mem_cons_of_mem _ (ih h)

theorem alookup_eq_some_of_mem {κ β : Type} [DecidableEq κ] {k : κ} {v : β} :
    ∀ {l : List (κ × β)}, (l.map Prod.fst).Nodup → (k, v) ∈ l →
      alookup k l = some v := by
  intro l
  induction l with
  | nil => intro _ h; simp at h
  | cons p rest ih =>
    intro hnd hm
    cases p with
    | mk k' w =>
      simp only [List.map_cons, List.nodup_cons] at hnd
      rcases List.mem_cons.1 hm with he | hm2
      · cases he
        simp [alookup]
      · have hk : k' ≠ k := by
          intro he
          exact hnd.1 (he ▸ (List.mem_map.2 ⟨(k, v), hm2, rfl⟩))
        simp only [alookup, if_neg hk]
        exact ih hnd.2 hm2

/-! ## Characterization of `ffillBy` -/

theorem option_orElse_none {α : Type} (x : Option α) :
    (x.orElse fun _ => none) = x := by cases x <;> rfl

theorem option_orElse_assoc {α : Type} (x y z : Option α) :
    ((x.orElse fun _ => y).orElse fun _ => z) =
      x.orElse (fun _ => y.orElse fun _ => z) := by cases x <;> rfl

theorem getLast?_cons_eq {α : Type} (a : α) (l : List α) :
    (a :: l).getLast? = (l.getLast?).orElse (fun _ => some a) := by
  cases l with
  | nil => rfl
  | cons b bs =>
    rw [List.getLast?_cons_cons]
    cases h : (b :: bs).getLast? with
    | none => simp [List.getLast?_eq_none_iff] at h
    | some v => rfl

/-- The last non-null `get` value among rows of group `k` in `l`. -/
def lastHit {ρ κ β : Type} [DecidableEq κ] (key : ρ → Option κ) (get : ρ → Option β)
    (k : κ) (l : List ρ) : Option β :=
  ((l.filter (fun r => key r = some k)).filterMap get).getLast?

theorem lastHit_nil {ρ κ β : Type} [DecidableEq κ] (key : ρ → Option κ)
    (get : ρ → Option β) (k : κ) : lastHit key get k [] = none := rfl

theorem lastHit_cons {ρ κ β : Type} [DecidableEq κ] (key : ρ → Option κ)
    (get : ρ → Option β) (k : κ) (r : ρ) (l : List ρ) :
    lastHit key get k (r :: l) =
      (lastHit key get k l).orElse
        (fun _ => if key r = some k then get r else none) := by
  by_cases hk : key r = some k
  · simp only [lastHit, List.filter_cons, hk, decide_eq_true_eq, if_pos]
    cases hg : get r with
    | none =>
      simp only [List.filterMap_cons, hg]
      exact (option_orElse_none _).symm
    | some v =>
      simp only [List.filterMap_cons, hg]
      rw [getLast?_cons_eq]
  · simp only [lastHit, List.filter_cons, decide_eq_true_eq, if_neg hk]
    exact (option_orElse_none _).symm

theorem length_ffillGo {ρ κ β : Type} [DecidableEq κ] (key : ρ → Option κ)
    (get : ρ → Option β) (set : ρ → Option β → ρ) :
    ∀ (l : List ρ) (acc : List (κ × β)),
      (ffillGo key get set acc l).length = l.length := by
  intro l
  induction l with
  | nil => intro acc; rfl
  | cons r rest ih =>
    intro acc
    cases hk : key r with
    | none => simp [ffillGo, hk, ih]
    | some k =>
      cases hg : get r with
      | some v => simp [ffillGo, hk, hg, ih]
      | none => simp [ffillGo, hk, hg, ih]

theorem length_ffillBy {ρ κ β : Type} [DecidableEq κ] (key : ρ → Option κ)
    (get : ρ → Option β) (set : ρ → Option β → ρ) (l : List ρ) :
    (ffillBy key get set l).length = l.length :=
  length_ffillGo key get set l []

theorem ffillGo_get {ρ κ β : Type} [DecidableEq κ] (key : ρ → Option κ)
    (get : ρ → Option β) (set : ρ → Option β → ρ) :
    ∀ (l : List ρ) (acc : List (κ × β)) (i : Nat) (hi : i < l.length)
      (hi2 : i < (ffillGo key get set acc l).length),
      (ffillGo key get set acc l).get ⟨i, hi2⟩ =
        set (l.get ⟨i, hi⟩)
          ((key (l.get ⟨i, hi⟩)).bind fun k =>
            (lastHit key get k (l.take (i + 1))).orElse fun _ => alookup k acc) := by
  intro l
  induction l with
  | nil => intro acc i hi _; simp at hi
  | cons r rest ih =>
    intro acc i hi hi2
    cases i with
    | zero =>
      cases hk : key r with
      | none =>
        simp [ffillGo, hk]
      | some k =>
        cases hg : get r with
        | some v =>
          simp [ffillGo, hk, hg, lastHit, List.filter_cons, List.take, Option.orElse]
        | none =>
          simp [ffillGo, hk, hg, lastHit, List.filter_cons, List.take, Option.orElse]
    | succ j =>
      have hj : j < rest.length := by simpa using hi
      -- the accumulator passed to the tail and the head's contribution
      have key_step : ∀ (acc' : List (κ × β)),
          (ffillGo key get set acc (r :: rest)).get ⟨j + 1, hi2⟩ =
            (ffillGo key get set acc' rest).get
              ⟨j, by rw [length_ffillGo]; exact hj⟩ →
          (∀ k : κ, ((lastHit key get k (rest.take (j + 1))).orElse
              fun _ => alookup k acc') =
            ((lastHit key get k ((r :: rest).take (j + 2))).orElse
              fun _ => alookup k acc)) →
          (ffillGo key get set acc (r :: rest)).get ⟨j + 1, hi2⟩ =
            set ((r :: rest).get ⟨j + 1, hi⟩)
              ((key ((r :: rest).get ⟨j + 1, hi⟩)).bind fun k =>
                (lastHit key get k ((r :: rest).take (j + 2))).orElse
                  fun _ => alookup k acc) := by
        intro acc' hhead hacc
        rw [hhead, ih acc' j hj]
        have hget : (r :: rest).get ⟨j + 1, hi⟩ = rest.get ⟨j, hj⟩ := rfl
        rw [hget]
        congr 1
        cases key (rest.get ⟨j, hj⟩) with
        | none => rfl
        | some k => rw [Option.some_bind, Option.some_bind, hacc k]
      have htake : ((r :: rest).take (j + 2)) = r :: rest.take (j + 1) := rfl
      cases hk : key r with
      | none =>
        refine key_step acc (by simp [ffillGo, hk]) ?_
        intro k
        rw [htake, lastHit_cons, hk]
        simp [option_orElse_assoc]
      | some k0 =>
        cases hg : get r with
        | some v =>
          refine key_step ((k0, v) :: acc) (by simp [ffillGo, hk, hg]) ?_
          intro k
          rw [htake, lastHit_cons, hk]
          by_cases hkk : k0 = k
          · subst hkk
            simp only [if_pos rfl, hg, option_orElse_assoc, alookup, if_pos rfl]
            simp
          · have : (some k0 = some k) = False := by simp [hkk]
            simp only [this, if_false, option_orElse_assoc, alookup, if_neg hkk]
            congr 1
        | none =>
          refine key_step acc (by simp [ffillGo, hk, hg]) ?_
          intro k
          rw [htake, lastHit_cons, hk]
          by_cases hkk : k0 = k
          · subst hkk
            simp [hg, option_orElse_assoc]
          · have : (some k0 = some k) = False := by simp [hkk]
            simp [this, option_orElse_assoc]

theorem ffillBy_get {ρ κ β : Type} [DecidableEq κ] (key : ρ → Option κ)
    (get : ρ → Option β) (set : ρ → Option β → ρ) (l : List ρ) (i : Nat)
    (hi : i < l.length) (hi2 : i < (ffillBy key get set l).length) :
    (ffillBy key get set l).get ⟨i, hi2⟩ =
      set (l.get ⟨i, hi⟩)
        ((key (l.get ⟨i, hi⟩)).bind fun k => lastHit key get k (l.take (i + 1))) := by
  simp only [ffillBy] at hi2 ⊢
  rw [ffillGo_get key get set l [] i hi hi2]
  congr 1
  cases key (l.get ⟨i, hi⟩) with
  | none => rfl
  | some k =>
    simp only [Option.bind_some, alookup]
    exact option_orElse_none _

/-! ## Characterization of `interpLin` -/

/-- The absolute position and value held by `interpGo`'s `last` argument
when it reaches position `n` of `l` (with `l`'s head at absolute
position `i`). -/
def prevIn : List (Option ℚ) → Nat → Nat → Option (Nat × ℚ) → Option (Nat × ℚ)
  | _, 0, _, last => last
  | [], _ + 1, _, last => last
  | some v :: rest, n + 1, i, _ => prevIn rest n (i + 1) (some (i, v))
  | none :: rest, n + 1, i, last => prevIn rest n (i + 1) last

theorem length_interpGo :
    ∀ (l : List (Option ℚ)) (last : Option (Nat × ℚ)) (i : Nat),
      (interpGo last i l).length = l.length := by
  intro l
  induction l with
  | nil => intro last i; rfl
  | cons c rest ih =>
    intro last i
    cases c with
    | some v => simp [interpGo, ih]
    | none => simp [interpGo, ih]

theorem interpGo_get :
    ∀ (l : List (Option ℚ)) (last : Option (Nat × ℚ)) (i n : Nat) (hn : n < l.length)
      (hn2 : n < (interpGo last i l).length),
      (interpGo last i l).get ⟨n, hn2⟩ =
        match l.get ⟨n, hn⟩ with
        | some v => some v
        | none =>
          match prevIn l n i last with
          | none => none
          | some p =>
            match findNextVal (l.drop (n + 1)) with
            | some q =>
              some (p.2 + (q.2 - p.2) * (((i + n : Nat) : ℚ) - p.1) /
                (((i + n + q.1 + 1 : Nat) : ℚ) - p.1))
            | none => some p.2 := by
  intro l
  induction l with
  | nil => intro last i n hn _; simp at hn
  | cons c rest ih =>
    intro last i n hn hn2
    cases n with
    | zero =>
      cases c with
      | some v => rfl
      | none => rfl
    | succ m =>
      have hm : m < rest.length := by simpa using hn
      cases c with
      | some v =>
        have hstep : (interpGo last i (some v :: rest)).get ⟨m + 1, hn2⟩ =
            (interpGo (some (i, v)) (i + 1) rest).get
              ⟨m, by rw [length_interpGo]; exact hm⟩ := rfl
        rw [hstep, ih (some (i, v)) (i + 1) m hm]
        have hprev : prevIn (some v :: rest) (m + 1) i last =
            prevIn rest m (i + 1) (some (i, v)) := rfl
        have hget : (some v :: rest).get ⟨m + 1, hn⟩ = rest.get ⟨m, hm⟩ := rfl
        have hdrop : (some v :: rest).drop (m + 2) = rest.drop (m + 1) := rfl
        rw [hget, hprev, hdrop]
        have h1 : i + 1 + m = i + (m + 1) := by omega
        cases rest.get ⟨m, hm⟩ with
        | some w => rfl
        | none =>
          cases prevIn rest m (i + 1) (some (i, v)) with
          | none => rfl
          | some p =>
            cases findNextVal (rest.drop (m + 1)) with
            | none => rfl
            | some q => rw [h1]
      | none =>
        have hstep : (interpGo last i (none :: rest)).get ⟨m + 1, hn2⟩ =
            (interpGo last (i + 1) rest).get
              ⟨m, by rw [length_interpGo]; exact hm⟩ := rfl
        rw [hstep, ih last (i + 1) m hm]
        have hprev : prevIn (none :: rest) (m + 1) i last =
            prevIn rest m (i + 1) last := rfl
        have hget : (none :: rest).get ⟨m + 1, hn⟩ = rest.get ⟨m, hm⟩ := rfl
        have hdrop : (none :: rest).drop (m + 2) = rest.drop (m + 1) := rfl
        rw [hget, hprev, hdrop]
        have h1 : i + 1 + m = i + (m + 1) := by omega
        cases rest.get ⟨m, hm⟩ with
        | some w => rfl
        | none =>
          cases prevIn rest m (i + 1) last with
          | none => rfl
          | some p =>
            cases findNextVal (rest.drop (m + 1)) with
            | none => rfl
            | some q => rw [h1]

theorem interpLin_get (l : List (Option ℚ)) (n : Nat) (hn : n < l.length)
    (hn2 : n < (interpLin l).length) :
    (interpLin l).get ⟨n, hn2⟩ =
      match l.get ⟨n, hn⟩ with
      | some v => some v
      | none =>
        match prevIn l n 0 none with
        | none => none
        | some p =>
          match findNextVal (l.drop (n + 1)) with
          | some q =>
            some (p.2 + (q.2 - p.2) * ((n : ℚ) - p.1) /
              (((n + q.1 + 1 : Nat) : ℚ) - p.1))
          | none => some p.2 := by
  have h := interpGo_get l none 0 n hn hn2
  simpa [interpLin, Nat.zero_add] using h

theorem length_interpLin (l : List (Option ℚ)) : (interpLin l).length = l.length :=
  length_interpGo l none 0

theorem prevIn_of_all_none :
    ∀ (l : List (Option ℚ)) (n i : Nat) (last : Option (Nat × ℚ)),
      (∀ m, m < n → ∀ (hml : m < l.length), l.get ⟨m, hml⟩ = none) →
      prevIn l n i last = last := by
  intro l
  induction l with
  | nil => intro n i last _; cases n <;> rfl
  | cons c rest ih =>
    intro n i last hall
    cases n with
    | zero => cases c <;> rfl
    | succ m =>
      have hc : c = none := hall 0 (Nat.succ_pos m) (by simp)
      subst hc
      exact ih m (i + 1) last fun m2 hm2 hml2 =>
        hall (m2 + 1) (by omega) (by simpa using hml2)

theorem prevIn_eq_of :
    ∀ (l : List (Option ℚ)) (j n i : Nat) (last : Option (Nat × ℚ)) (a : ℚ)
      (hj : j < l.length), l.get ⟨j, hj⟩ = some a → j < n →
      (∀ m, j < m → m < n → ∀ (hm : m < l.length), l.get ⟨m, hm⟩ = none) →
      prevIn l n i last = some (i + j, a) := by
  intro l
  induction l with
  | nil => intro j n i last a hj; simp at hj
  | cons c rest ih =>
    intro j n i last a hj hja hjn hnone
    cases n with
    | zero => omega
    | succ m =>
      cases j with
      | zero =>
        have hc : c = some a := hja
        subst hc
        have : prevIn (some a :: rest) (m + 1) i last =
            prevIn rest m (i + 1) (some (i, a)) := rfl
        rw [this]
        rw [prevIn_of_all_none rest m (i + 1) (some (i, a)) ?_]
        · simp
        · intro m2 hm2 hml2
          exact hnone (m2 + 1) (Nat.succ_pos m2) (by omega) (by simpa using hml2)
      | succ j0 =>
        have hj0 : j0 < rest.length := by simpa using hj
        have hrec : ∀ last2, prevIn rest m (i + 1) last2 = some (i + 1 + j0, a) := by
          intro last2
          exact ih j0 m (i + 1) last2 a hj0 hja (by omega)
            (fun m2 h1 h2 hm2 => hnone (m2 + 1) (by omega) (by omega) (by simpa using hm2))
        have hfix : i + 1 + j0 = i + (j0 + 1) := by omega
        cases c with
        | some v =>
          have hs : prevIn (some v :: rest) (m + 1) i last =
              prevIn rest m (i + 1) (some (i, v)) := rfl
          rw [hs, hrec, hfix]
        | none =>
          have hs : prevIn (none :: rest) (m + 1) i last =
              prevIn rest m (i + 1) last := rfl
          rw [hs, hrec, hfix]

theorem findNextVal_eq_of :
    ∀ (l : List (Option ℚ)) (d : Nat) (b : ℚ) (hd : d < l.length),
      l.get ⟨d, hd⟩ = some b →
      (∀ m, m < d → ∀ (hml : m < l.length), l.get ⟨m, hml⟩ = none) →
      findNextVal l = some (d, b) := by
  intro l
  induction l with
  | nil => intro d b hd; simp at hd
  | cons c rest ih =>
    intro d b hd hdb hnone
    cases d with
    | zero =>
      have hc : c = some b := hdb
      subst hc
      rfl
    | succ d0 =>
      have hc : c = none := hnone 0 (Nat.succ_pos d0) (by simp)
      subst hc
      have hd0 : d0 < rest.length := by simpa using hd
      have := ih d0 b hd0 hdb
        (fun m _hm hml => hnone (m + 1) (by omega) (by simpa using hml))
      simp [findNextVal, this]

/-! ## Helper lemmas about the validation checks -/

theorem eqAsSets_iff {a b : List String} :
    eqAsSets a b = true ↔ ∀ c, c ∈ a ↔ c ∈ b := by
  simp only [eqAsSets, Bool.and_eq_true, List.all_eq_true]
  constructor
  · rintro ⟨h1, h2⟩ c
    constructor
    · intro hc
      simpa using h1 c hc
    · intro hc
      simpa using h2 c hc
  · intro h
    constructor
    · intro c hc
      simpa using (h c).1 hc
    · intro c hc
      simpa using (h c).2 hc

/-- `checkBoundaries` only ever raises ValueError. -/
theorem checkBoundaries_error {xss : List (List Int)} {e : Err}
    (h : checkBoundaries xss = .error e) : e = .valueError := by
  unfold checkBoundaries at h
  split_ifs at h <;> simp_all

/-- A record whose minutes miss 0 or 10079 fails the boundary check. -/
theorem checkBoundaries_error_of_missing {xss : List (List Int)} {xs : List Int}
    (hmem : xs ∈ xss) (hbad : (0 : Int) ∉ xs ∨ (10079 : Int) ∉ xs) :
    checkBoundaries xss = .error .valueError := by
  unfold checkBoundaries
  by_cases h1 : xss.any (fun xs => decide (xs.min? ≠ some 0))
  · rw [if_pos h1]
  · rw [if_neg h1]
    have hmin : xs.min? = some 0 := by
      simp only [List.any_eq_true, decide_eq_true_eq, not_exists, not_and,
        Decidable.not_not] at h1
      exact h1 xs hmem
    have h0 : (0 : Int) ∈ xs := List.min?_mem (fun a b => min_choice a b) hmin
    have hbad2 : (10079 : Int) ∉ xs := by
      rcases hbad with h | h
      · exact absurd h0 h
      · exact h
    have hmax : xs.max? ≠ some 10079 := by
      intro hmax
      exact hbad2 (List.max?_mem (fun a b => max_choice a b) hmax)
    rw [if_pos]
    simp only [List.any_eq_true, decide_eq_true_eq]
    exact ⟨xs, hmem, hmax⟩

/-- A boundary check over records whose minutes run from 0 to 10079 passes. -/
theorem checkBoundaries_ok {xss : List (List Int)}
    (h : ∀ xs ∈ xss, xs.min? = some 0 ∧ xs.max? = some 10079) :
    checkBoundaries xss = .ok () := by
  unfold checkBoundaries
  rw [if_neg, if_neg]
  · simp only [List.any_eq_true, decide_eq_true_eq, not_exists, not_and,
      Decidable.not_not]
    intro xs hxs
    exact (h xs hxs).2
  · simp only [List.any_eq_true, decide_eq_true_eq, not_exists, not_and,
      Decidable.not_not]
    intro xs hxs
    exact (h xs hxs).1

theorem length_flatMap_const {α β : Type} (l : List α) (f : α → List β) (n : Nat)
    (h : ∀ a, (f a).length = n) : (l.flatMap f).length = n * l.length := by
  induction l with
  | nil => simp
  | cons a as ih =>
    simp only [List.flatMap_cons, List.length_append, ih, h a, List.length_cons]
    ring

/-! ## Claims -/

/-- C6: for every curve record set containing a record whose minutes miss 0
or miss 10079, `create_product_inventory` (inventory curves) and
`interpolate_consumption_curves` (consumption curves) raise ValueError;
conversely, when every record's minutes have minimum 0 and maximum 10079,
the boundary check raises nothing. -/
theorem boundary_validation_spec :
    (∀ t : Table InvCurveRow,
      (∃ r ∈ t.rows, (0 : Int) ∉ r.X ∨ (10079 : Int) ∉ r.X) →
      create_product_inventory t = .error .valueError) ∧
    (∀ (cc : Table ConsCurveRow) (tpg : Table TpgRow),
      (∃ r ∈ cc.rows, (0 : Int) ∉ r.X ∨ (10079 : Int) ∉ r.X) →
      interpolate_consumption_curves cc tpg = .error .valueError) ∧
    (∀ xss : List (List Int),
      (∀ xs ∈ xss, xs.min? = some 0 ∧ xs.max? = some 10079) →
      checkBoundaries xss = .ok ()) := by
  refine ⟨?_, ?_, fun xss h => checkBoundaries_ok h⟩
  · rintro t ⟨r, hr, hbad⟩
    unfold create_product_inventory
    by_cases hcols : eqAsSets requiredColsInv t.cols
    · rw [if_neg (by simp [hcols])]
      rw [checkBoundaries_error_of_missing (List.mem_map_of_mem (fun r => r.X) hr) hbad]
    · rw [if_pos (by simp [hcols])]
  · rintro cc tpg ⟨r, hr, hbad⟩
    unfold interpolate_consumption_curves
    rw [checkBoundaries_error_of_missing (List.mem_map_of_mem (fun r => r.X) hr) hbad]

/-- Concrete inputs witnessing the boundary validation. -/
def invBadBoundary : Table InvCurveRow :=
  ⟨requiredColsInv, [⟨"A", "P", 1, 5, "W", [5, 10079], [1, 1]⟩]⟩

def consBadBoundary : Table ConsCurveRow :=
  ⟨requiredColsCftg, [⟨"A", 5, "W", [0, 9000], [0, 1]⟩]⟩

def tpgEmptyW : Table TpgRow := ⟨requiredColsTpg, []⟩

theorem boundary_validation_spec_witness :
    create_product_inventory invBadBoundary = .error .valueError ∧
    interpolate_consumption_curves consBadBoundary tpgEmptyW = .error .valueError ∧
    checkBoundaries [[0, 10079]] = .ok () :=
  ⟨boundary_validation_spec.1 invBadBoundary
      ⟨⟨"A", "P", 1, 5, "W", [5, 10079], [1, 1]⟩, by decide, by decide⟩,
   boundary_validation_spec.2.1 consBadBoundary tpgEmptyW
      ⟨⟨"A", 5, "W", [0, 9000], [0, 1]⟩, by decide, by decide⟩,
   boundary_validation_spec.2.2 [[0, 10079]] (by decide)⟩

/-- C10: the four column-validated stages reject any input whose column set
is not exactly the required set — extra columns included, since the check
is a set equality. -/
theorem column_validation_rejects_nonexact :
    (∀ cc : Table ConsCurveRow,
      ¬ (∀ c, c ∈ cc.cols ↔ c ∈ requiredColsCftg) →
      create_full_time_grid cc = .error .valueError) ∧
    (∀ t : Table InvCurveRow,
      ¬ (∀ c, c ∈ t.cols ↔ c ∈ requiredColsInv) →
      create_product_inventory t = .error .valueError) ∧
    (∀ (pig : Table PigRow) (tpg : Table TpgRow),
      ¬ ((∀ c, c ∈ pig.cols ↔ c ∈ requiredColsInv) ∧
         (∀ c, c ∈ tpg.cols ↔ c ∈ requiredColsTpg)) →
      calc_product_availability_ratio pig tpg = .error .valueError) ∧
    (∀ (cci : Table CciRow) (par : Table ParRow),
      ¬ ((∀ c, c ∈ cci.cols ↔ c ∈ requiredColsCci) ∧
         (∀ c, c ∈ par.cols ↔ c ∈ requiredColsPar)) →
      calc_quality_of_service cci par = .error .valueError) := by
  have hsets : ∀ (a b : List String), ¬ (∀ c, c ∈ b ↔ c ∈ a) →
      eqAsSets a b = false := by
    intro a b h
    by_cases hb : eqAsSets a b = true
    · exact absurd (fun c => (eqAsSets_iff.1 hb c).symm) h
    · exact Bool.eq_false_iff.2 hb
  refine ⟨?_, ?_, ?_, ?_⟩
  · intro cc h
    unfold create_full_time_grid
    rw [if_pos (by simp [hsets _ _ h])]
  · intro t h
    unfold create_product_inventory
    rw [if_pos (by simp [hsets _ _ h])]
  · intro pig tpg h
    unfold calc_product_availability_ratio
    by_cases h1 : ∀ c, c ∈ pig.cols ↔ c ∈ requiredColsInv
    · have h2 : ¬ (∀ c, c ∈ tpg.cols ↔ c ∈ requiredColsTpg) := fun h2 => h ⟨h1, h2⟩
      rw [if_neg, if_pos (by simp [hsets _ _ h2])]
      simp [eqAsSets_iff.2 (fun c => (h1 c).symm)]
    · rw [if_pos (by simp [hsets _ _ h1])]
  · intro cci par h
    unfold calc_quality_of_service
    by_cases h1 : ∀ c, c ∈ cci.cols ↔ c ∈ requiredColsCci
    · have h2 : ¬ (∀ c, c ∈ par.cols ↔ c ∈ requiredColsPar) := fun h2 => h ⟨h1, h2⟩
      rw [if_neg, if_pos (by simp [hsets _ _ h2])]
      simp [eqAsSets_iff.2 (fun c => (h1 c).symm)]
    · rw [if_pos (by simp [hsets _ _ h1])]

theorem column_validation_rejects_nonexact_witness :
    create_full_time_grid ⟨requiredColsCftg ++ ["EXTRA"], []⟩ = .error .valueError ∧
    create_product_inventory ⟨requiredColsInv ++ ["EXTRA"], []⟩ = .error .valueError ∧
    calc_product_availability_ratio ⟨requiredColsInv ++ ["EXTRA"], []⟩
      ⟨requiredColsTpg, []⟩ = .error .valueError ∧
    calc_quality_of_service ⟨requiredColsCci, []⟩ ⟨requiredColsPar ++ ["EXTRA"], []⟩ =
      .error .valueError :=
  ⟨column_validation_rejects_nonexact.1 _
      (fun hall => absurd ((hall "EXTRA").1 (by decide)) (by decide)),
   column_validation_rejects_nonexact.2.1 _
      (fun hall => absurd ((hall "EXTRA").1 (by decide)) (by decide)),
   column_validation_rejects_nonexact.2.2.1 _ _
      (fun hall => absurd ((hall.1 "EXTRA").1 (by decide)) (by decide)),
   column_validation_rejects_nonexact.2.2.2 _ _
      (fun hall => absurd ((hall.2 "EXTRA").1 (by decide)) (by decide))⟩

/-- A demand record whose inventory curve id (1) matches no curve. -/
def qdMissingCurve : Table QosDataRow :=
  ⟨["DATE", "LOCATION", "PRODUCT", "INVENTORY_CURVE_ID", "CONSUMPTION_PROFILE_CURVE_ID"],
   [⟨"2023-06-12", "A", "P", 1, 5⟩]⟩

/-- A curves table with no curve at all. -/
def qcNoCurves : Table QosCurveRow :=
  ⟨["CURVE_ID", "CURVE_TYPE", "WEEK_START", "X", "Y"], []⟩

/-- A curves table in which curve id 1 appears twice. -/
def qcDupCurve : Table QosCurveRow :=
  ⟨["CURVE_ID", "CURVE_TYPE", "WEEK_START", "X", "Y"],
   [⟨1, "inventory", "2023-06-12", [0, 10079], [5, 5]⟩,
    ⟨1, "inventory", "2023-06-12", [0, 10079], [3, 3]⟩]⟩

/-- C3: a DemandRecord whose `inventory_curve_id` matches *two* curves does
raise MergeError, but one that matches *no* curve is silently dropped by
the inner join — `transform_qos_data` returns normally with the record
absent from both outputs, against the documented must-halt behaviour. -/
theorem transform_missing_curve_is_dropped :
    ((transform_qos_data qdMissingCurve qcNoCurves).map
        (fun out => (out.1.rows, out.2.1.rows)) = .ok ([], [])) ∧
    transform_qos_data qdMissingCurve qcDupCurve = .error .mergeError := by
  constructor <;> decide

/-- An input whose (location, cpc, week) triple repeats on two rows. -/
def ccDupTriple : Table ConsCurveRow :=
  ⟨requiredColsCftg,
   [⟨"A", 5, "W", [0, 10079], [0, 1]⟩, ⟨"A", 5, "W", [0, 10079], [0, 1]⟩]⟩

/-- C7 counterexample: with a repeated (location, cpc, week) triple the grid
has `10080 × (number of rows)` rows — here 20160 — and not
`10080 × distinct triples = 10080`: the source never de-duplicates the
triples (`_qos_transformations.py` line 117). -/
theorem grid_row_count_counterexample :
    ∃ g, create_full_time_grid ccDupTriple = .ok g ∧
      g.rows.length = 20160 ∧
      10080 * (dropDuplicates (ccDupTriple.rows.map fun r =>
        (r.location, r.consumption_profile_curve_id, r.week_start))).length = 10080 ∧
      (20160 : Nat) ≠ 10080 := by
  refine ⟨⟨["LOCATION", "CONSUMPTION_PROFILE_CURVE_ID", "WEEK_START", "X"],
      ccDupTriple.rows.flatMap fun r => (List.range 10080).map fun (x : Nat) =>
        ⟨r.location, r.consumption_profile_curve_id, r.week_start, (x : Int)⟩⟩,
    ?_, ?_, by decide, by decide⟩
  · unfold create_full_time_grid
    rw [if_neg (by decide)]
  · rw [length_flatMap_const _ _ 10080 (fun a => by
      rw [List.length_map, List.length_range])]
    decide

/-- C7 as amended: the TimePointGrid has exactly `10080 × (number of input
rows)` rows; when the input's (location, cpc, week) triples are pairwise
distinct this equals `10080 × distinct(location, cpc, week)`. -/
theorem grid_row_count (cc : Table ConsCurveRow)
    (hcols : eqAsSets requiredColsCftg cc.cols = true) :
    ∃ g, create_full_time_grid cc = .ok g ∧
      g.rows.length = 10080 * cc.rows.length ∧
      ((cc.rows.map fun r =>
          (r.location, r.consumption_profile_curve_id, r.week_start)).Nodup →
        g.rows.length = 10080 * (dropDuplicates (cc.rows.map fun r =>
          (r.location, r.consumption_profile_curve_id, r.week_start))).length) := by
  refine ⟨⟨["LOCATION", "CONSUMPTION_PROFILE_CURVE_ID", "WEEK_START", "X"],
      cc.rows.flatMap fun r => (List.range 10080).map fun (x : Nat) =>
        ⟨r.location, r.consumption_profile_curve_id, r.week_start, (x : Int)⟩⟩,
    ?_, ?_, ?_⟩
  · unfold create_full_time_grid
    rw [if_neg (by simp [hcols])]
  · exact length_flatMap_const _ _ 10080 (fun a => by
      rw [List.length_map, List.length_range])
  · intro hnd
    rw [dropDuplicates_eq_self hnd, List.length_map]
    exact length_flatMap_const _ _ 10080 (fun a => by
      rw [List.length_map, List.length_range])

theorem grid_row_count_witness :
    ∃ g, create_full_time_grid ⟨requiredColsCftg,
        [⟨"A", 5, "W", [0, 10079], [0, 1]⟩]⟩ = .ok g ∧
      g.rows.length = 10080 * 1 ∧ g.rows.length = 10080 * 1 := by
  obtain ⟨g, h1, h2, h3⟩ := grid_row_count
    ⟨requiredColsCftg, [⟨"A", 5, "W", [0, 10079], [0, 1]⟩]⟩ (by decide)
  refine ⟨g, h1, h2, ?_⟩
  have := h3 (by decide)
  simpa [dropDuplicates, dropDupGo] using this

/-- Minutes `[0, 7, 3, 10079]` are not strictly increasing, yet
`create_product_inventory` processes them without error. -/
def invNonMonotone : Table InvCurveRow :=
  ⟨requiredColsInv, [⟨"A", "P", 1, 5, "W", [0, 7, 3, 10079], [1, 2, 3, 4]⟩]⟩

/-- C8 counterexample: a CurveSample whose minutes are not strictly
increasing (but still have min 0 and max 10079) is processed without any
error — the pipeline checks only `min` and `max`, never monotonicity. -/
theorem non_monotone_minutes_accepted :
    (create_product_inventory invNonMonotone).map (fun t => t.rows.length) =
      .ok 4 := by
  decide

/-- C8 as amended: `minutes`/`values` of unequal length are a fatal input
error (pandas `explode` raises ValueError) in both exploding stages;
non-strictly-increasing minutes are not detected. -/
theorem unequal_lengths_raise :
    (∀ t : Table InvCurveRow, (∃ r ∈ t.rows, r.X.length ≠ r.Y.length) →
      create_product_inventory t = .error .valueError) ∧
    (∀ (cc : Table ConsCurveRow) (tpg : Table TpgRow),
      (∃ r ∈ cc.rows, r.X.length ≠ r.Y.length) →
      interpolate_consumption_curves cc tpg = .error .valueError) := by
  have hinv : ∀ rows : List InvCurveRow, (∃ r ∈ rows, r.X.length ≠ r.Y.length) →
      explodeList explodeInvRow rows = .error .valueError := by
    intro rows
    induction rows with
    | nil => rintro ⟨r, hr, _⟩; simp at hr
    | cons r0 rest ih =>
      rintro ⟨r, hr, hbad⟩
      rcases List.mem_cons.1 hr with rfl | hr2
      · have : explodeInvRow r = .error .valueError := by
          unfold explodeInvRow
          rw [if_neg hbad]
        simp [explodeList, this]
      · have hrec := ih ⟨r, hr2, hbad⟩
        unfold explodeList
        rw [hrec]
        cases hfr : explodeInvRow r0 with
        | error e =>
          unfold explodeInvRow at hfr
          split_ifs at hfr <;> cases hfr <;> rfl
        | ok ps => rfl
  have hcons : ∀ rows : List ConsCurveRow, (∃ r ∈ rows, r.X.length ≠ r.Y.length) →
      explodeList explodeConsRow rows = .error .valueError := by
    intro rows
    induction rows with
    | nil => rintro ⟨r, hr, _⟩; simp at hr
    | cons r0 rest ih =>
      rintro ⟨r, hr, hbad⟩
      rcases List.mem_cons.1 hr with rfl | hr2
      · have : explodeConsRow r = .error .valueError := by
          unfold explodeConsRow
          rw [if_neg hbad]
        simp [explodeList, this]
      · have hrec := ih ⟨r, hr2, hbad⟩
        unfold explodeList
        rw [hrec]
        cases hfr : explodeConsRow r0 with
        | error e =>
          unfold explodeConsRow at hfr
          split_ifs at hfr <;> cases hfr <;> rfl
        | ok ps => rfl
  constructor
  · rintro t ⟨r, hr, hbad⟩
    unfold create_product_inventory
    by_cases hcols : eqAsSets requiredColsInv t.cols
    · rw [if_neg (by simp [hcols])]
      cases hb : checkBoundaries (t.rows.map fun r => r.X) with
      | error e => rw [checkBoundaries_error hb]
      | ok u => cases u; rw [hinv t.rows ⟨r, hr, hbad⟩]
    · rw [if_pos (by simp [hcols])]
  · rintro cc tpg ⟨r, hr, hbad⟩
    unfold interpolate_consumption_curves
    cases hb : checkBoundaries (cc.rows.map fun r => r.X) with
    | error e => rw [checkBoundaries_error hb]
    | ok u => cases u; rw [hcons cc.rows ⟨r, hr, hbad⟩]

theorem unequal_lengths_raise_witness :
    create_product_inventory ⟨requiredColsInv,
      [⟨"A", "P", 1, 5, "W", [0, 10079], [1]⟩]⟩ = .error .valueError ∧
    interpolate_consumption_curves ⟨requiredColsCftg,
      [⟨"A", 5, "W", [0, 10079], [1]⟩]⟩ ⟨requiredColsTpg, []⟩ = .error .valueError :=
  ⟨unequal_lengths_raise.1 _ ⟨⟨"A", "P", 1, 5, "W", [0, 10079], [1]⟩, by decide, by decide⟩,
   unequal_lengths_raise.2 _ _ ⟨⟨"A", 5, "W", [0, 10079], [1]⟩, by decide, by decide⟩⟩

/-- A minimal `qos_data` input for observing the in-place mutation. -/
def qdMut : Table QosDataRow :=
  ⟨["DATE", "LOCATION", "PRODUCT", "INVENTORY_CURVE_ID", "CONSUMPTION_PROFILE_CURVE_ID"],
   [⟨"2023-06-12", "A", "P", 1, 5⟩]⟩

def qcMut : Table QosCurveRow :=
  ⟨["CURVE_ID", "CURVE_TYPE", "WEEK_START", "X", "Y"],
   [⟨1, "inventory", "W", [0, 10079], [5, 5]⟩]⟩

/-- An empty grid and an empty inventory grid with the required columns. -/
def pigEmpty : Table PigRow := ⟨requiredColsInv, []⟩

def tpgEmptyCols : Table TpgRow := ⟨requiredColsTpg, []⟩

/-- C9 counterexample: after `transform_qos_data` returns, the caller's
`qos_data` has lost its DATE column (`drop(..., inplace=True)`), and after
`calc_product_availability_ratio` the input grid has gained a
PRODUCT_IN_STOCK column: the stages do mutate their inputs in place. -/
theorem stages_mutate_inputs_counterexample :
    ((transform_qos_data qdMut qcMut).map (fun out => out.2.2.cols) =
      .ok ["LOCATION", "PRODUCT", "INVENTORY_CURVE_ID", "CONSUMPTION_PROFILE_CURVE_ID"] ∧
     qdMut.cols ≠ ["LOCATION", "PRODUCT", "INVENTORY_CURVE_ID",
       "CONSUMPTION_PROFILE_CURVE_ID"]) ∧
    ((calc_product_availability_ratio pigEmpty tpgEmptyCols).map (fun out => out.2.cols) =
      .ok (requiredColsInv ++ ["PRODUCT_IN_STOCK"]) ∧
     pigEmpty.cols ≠ requiredColsInv ++ ["PRODUCT_IN_STOCK"]) := by
  refine ⟨⟨by decide, by decide⟩, ⟨by decide, by decide⟩⟩

/-- C9 as amended: `transform_qos_data` and `calc_product_availability_ratio`
mutate their first inputs in place — the post-call `qos_data` is the
de-duplicated table without its DATE column, and the post-call
`product_inventory_grid` carries an extra PRODUCT_IN_STOCK column — so the
mutated input differs from what was passed in whenever the call returns. -/
theorem transform_ok_state {qd : Table QosDataRow} {qc : Table QosCurveRow}
    {out : Table InvCurveRow × Table ConsCurveRow × Table DemandRow}
    (h : transform_qos_data qd qc = .ok out) :
    "DATE" ∈ qd.cols ∧
    out.2.2 = ⟨qd.cols.filter (fun c => c ≠ "DATE"),
      dropDuplicates (qd.rows.map QosDataRow.toDemand)⟩ := by
  unfold transform_qos_data at h
  split at h
  · cases h
  · rename_i hdate
    try simp only [] at h
    split at h
    · cases h
    · try simp only [] at h
      split at h
      · cases h
      · refine ⟨by simpa using hdate, ?_⟩
        obtain rfl := Except.ok.inj h
        rfl

theorem calc_par_ok_state {pig : Table PigRow} {tpg : Table TpgRow}
    {out2 : Table ParRow × Table (PigRow × ℚ)}
    (h : calc_product_availability_ratio pig tpg = .ok out2) :
    out2 = (⟨tpg.cols ++ ["PA_RATIO"], parFilled pig.rows tpg.rows⟩,
      ⟨pig.cols ++ ["PRODUCT_IN_STOCK"], parStock pig.rows⟩) := by
  unfold calc_product_availability_ratio at h
  split at h
  · cases h
  · split at h
    · cases h
    · try simp only [] at h
      split at h
      · cases h
      · try simp only [] at h
        split at h
        · cases h
        · exact (Except.ok.inj h).symm

theorem stages_mutate_inputs (qd : Table QosDataRow) (qc : Table QosCurveRow)
    (pig : Table PigRow) (tpg : Table TpgRow)
    (out : Table InvCurveRow × Table ConsCurveRow × Table DemandRow)
    (out2 : Table ParRow × Table (PigRow × ℚ))
    (h1 : transform_qos_data qd qc = .ok out)
    (h2 : calc_product_availability_ratio pig tpg = .ok out2) :
    ("DATE" ∈ qd.cols ∧
      out.2.2.cols = qd.cols.filter (fun c => c ≠ "DATE") ∧
      out.2.2.rows = dropDuplicates (qd.rows.map QosDataRow.toDemand) ∧
      out.2.2.cols ≠ qd.cols) ∧
    (out2.2.cols = pig.cols ++ ["PRODUCT_IN_STOCK"] ∧
      out2.2.rows = parStock pig.rows ∧
      out2.2.cols ≠ pig.cols) := by
  obtain ⟨hdate, hstate⟩ := transform_ok_state h1
  have hstate2 := calc_par_ok_state h2
  constructor
  · refine ⟨hdate, by rw [hstate], by rw [hstate], ?_⟩
    rw [hstate]
    show qd.cols.filter (fun c => c ≠ "DATE") ≠ qd.cols
    intro heq
    have hlt : (qd.cols.filter (fun c => c ≠ "DATE")).length < qd.cols.length := by
      refine List.length_filter_lt_length_iff_exists.2 ⟨"DATE", hdate, ?_⟩
      simp
    rw [heq] at hlt
    exact Nat.lt_irrefl _ hlt
  · refine ⟨by rw [hstate2], by rw [hstate2], ?_⟩
    rw [hstate2]
    show pig.cols ++ ["PRODUCT_IN_STOCK"] ≠ pig.cols
    intro heq
    have := congrArg List.length heq
    simp at this

theorem stages_mutate_inputs_witness :
    ("DATE" ∈ qdMut.cols ∧
      ["LOCATION", "PRODUCT", "INVENTORY_CURVE_ID",
        "CONSUMPTION_PROFILE_CURVE_ID"] = qdMut.cols.filter (fun c => c ≠ "DATE") ∧
      [(⟨"A", "P", 1, 5⟩ : DemandRow)] =
        dropDuplicates (qdMut.rows.map QosDataRow.toDemand) ∧
      ["LOCATION", "PRODUCT", "INVENTORY_CURVE_ID",
        "CONSUMPTION_PROFILE_CURVE_ID"] ≠ qdMut.cols) ∧
    (requiredColsInv ++ ["PRODUCT_IN_STOCK"] = pigEmpty.cols ++ ["PRODUCT_IN_STOCK"] ∧
      ([] : List (PigRow × ℚ)) = parStock pigEmpty.rows ∧
      requiredColsInv ++ ["PRODUCT_IN_STOCK"] ≠ pigEmpty.cols) :=
  stages_mutate_inputs qdMut qcMut pigEmpty tpgEmptyCols
    (⟨["LOCATION", "PRODUCT", "INVENTORY_CURVE_ID", "CONSUMPTION_PROFILE_CURVE_ID",
        "WEEK_START", "X", "Y"],
      [⟨"A", "P", 1, 5, "W", [0, 10079], [5, 5]⟩]⟩,
     ⟨["LOCATION", "CONSUMPTION_PROFILE_CURVE_ID", "WEEK_START", "X", "Y"], []⟩,
     ⟨["LOCATION", "PRODUCT", "INVENTORY_CURVE_ID", "CONSUMPTION_PROFILE_CURVE_ID"],
      [⟨"A", "P", 1, 5⟩]⟩)
    (⟨requiredColsTpg ++ ["PA_RATIO"], []⟩,
     ⟨requiredColsInv ++ ["PRODUCT_IN_STOCK"], []⟩)
    (by decide) (by decide)

theorem groupSum_keys {ρ κ : Type} [DecidableEq κ] (keyf : ρ → κ)
    (valf : ρ → Option ℚ) (rows : List ρ) :
    (groupSum keyf valf rows).map Prod.fst = dropDuplicates (rows.map keyf) := by
  unfold groupSum groupKeys
  rw [List.map_map]
  have h : (Prod.fst ∘ fun k => (k,
      ((rows.filter (fun r => keyf r = k)).filterMap valf).sum)) = id := by
    funext k
    rfl
  rw [h, List.map_id]

/-- C1: when the two per-minute series match one-to-one on
(location, cpc, week, minute) — each cci row has a matching par row and the
keys are unique on both sides — `calc_quality_of_service` returns exactly
one row per (location, week_start) appearing in the interpolated series,
and that row's QOS is the sum over the (location, week)'s minutes of
`PA_RATIO × CONSUMPTION_Y` (any `f` consistent with the per-minute product,
as hypothesis `hf` states, gives the sum). -/
theorem qos_aggregation (cci : Table CciRow) (par : Table ParRow)
    (hc1 : eqAsSets requiredColsCci cci.cols = true)
    (hc2 : eqAsSets requiredColsPar par.cols = true)
    (hnd1 : (cci.rows.map cciKey).Nodup)
    (hnd2 : (par.rows.map parKey).Nodup)
    (hmatch : ∀ r ∈ cci.rows, ∃ p ∈ par.rows, parKey p = cciKey r)
    (f : CciRow → ℚ)
    (hf : ∀ r ∈ cci.rows, ∀ p ∈ par.rows, parKey p = cciKey r →
      optMul p.pa r.consumption_y = some (f r)) :
    ∃ out : Table QosRow,
      calc_quality_of_service cci par = .ok out ∧
      (out.rows.map fun w => (w.location, w.week_start)) =
        dropDuplicates (cci.rows.map fun r => (r.location, r.week_start)) ∧
      (out.rows.map fun w => (w.location, w.week_start)).Nodup ∧
      ∀ w ∈ out.rows, w.qos =
        ((cci.rows.filter fun r =>
            r.location = w.location ∧ r.week_start = w.week_start).map f).sum := by
  -- the merged rows carry exactly the matched PA_RATIO
  have hlook : ∀ r ∈ cci.rows,
      (alookup (cciKey r) (par.rows.map fun p => (parKey p, p.pa))).join.isSome ∧
      ∀ p ∈ par.rows, parKey p = cciKey r →
        (alookup (cciKey r) (par.rows.map fun p => (parKey p, p.pa))).join = p.pa := by
    intro r hr
    obtain ⟨p, hp, hpk⟩ := hmatch r hr
    have hnd : ((par.rows.map fun p => (parKey p, p.pa)).map Prod.fst).Nodup := by
      rw [List.map_map]
      exact hnd2
    have hmem : (cciKey r, p.pa) ∈ par.rows.map fun p => (parKey p, p.pa) :=
      List.mem_map.2 ⟨p, hp, by rw [hpk]⟩
    have heq := alookup_eq_some_of_mem hnd hmem
    constructor
    · rw [heq]
      have hprod := hf r hr p hp hpk
      cases hpa : p.pa with
      | none => rw [hpa] at hprod; simp [optMul] at hprod
      | some v => simp [hpa]
    · intro q hq hqk
      have hmem2 : (cciKey r, q.pa) ∈ par.rows.map fun p => (parKey p, p.pa) :=
        List.mem_map.2 ⟨q, hq, by rw [hqk]⟩
      have heq2 := alookup_eq_some_of_mem hnd hmem2
      rw [heq2]
      rfl
  refine ⟨⟨["QOS"], (qosRows cci.rows par.rows).map fun p => ⟨p.1.1, p.1.2, p.2⟩⟩,
    ?_, ?_, ?_, ?_⟩
  · unfold calc_quality_of_service
    rw [if_neg (by simp [hc1]), if_neg (by simp [hc2]),
      if_neg (by simp [hnd1, hnd2])]
  · rw [List.map_map]
    have hpe : ((fun (w : QosRow) => (w.location, w.week_start)) ∘
        fun (p : (String × String) × ℚ) => (⟨p.1.1, p.1.2, p.2⟩ : QosRow)) =
        Prod.fst := by
      funext p
      exact Prod.mk.eta
    rw [hpe, qosRows, groupSum_keys, qosMerged, List.map_map]
    rfl
  · rw [List.map_map]
    have hpe : ((fun (w : QosRow) => (w.location, w.week_start)) ∘
        fun (p : (String × String) × ℚ) => (⟨p.1.1, p.1.2, p.2⟩ : QosRow)) =
        Prod.fst := by
      funext p
      exact Prod.mk.eta
    rw [hpe, qosRows, groupSum_keys]
    exact nodup_dropDuplicates _
  · intro w hw
    obtain ⟨p, hp, rfl⟩ := List.mem_map.1 hw
    obtain ⟨k, hk, rfl⟩ := List.mem_map.1 hp
    show (((qosMerged cci.rows par.rows).filter
        (fun p => (p.1.location, p.1.week_start) = k)).filterMap
          (fun p => optMul p.2 p.1.consumption_y)).sum = _
    unfold qosMerged
    rw [List.filter_map, List.filterMap_map]
    have hfe : (cci.rows.filter ((fun (p : CciRow × Option ℚ) =>
          decide ((p.1.location, p.1.week_start) = k)) ∘
        (fun r => (r, (alookup (cciKey r) (par.rows.map fun p => (parKey p, p.pa))).join)))) =
        cci.rows.filter (fun r => r.location = k.1 ∧ r.week_start = k.2) := by
      refine List.filter_congr ?_
      intro r _
      simp only [Function.comp, decide_eq_decide]
      constructor
      · intro h
        exact ⟨congrArg Prod.fst h, congrArg Prod.snd h⟩
      · rintro ⟨h1, h2⟩
        rw [h1, h2]
    rw [hfe]
    have hfm : ∀ r ∈ cci.rows.filter (fun r => r.location = k.1 ∧ r.week_start = k.2),
        ((fun (p : CciRow × Option ℚ) => optMul p.2 p.1.consumption_y) ∘
          (fun r => (r, (alookup (cciKey r)
            (par.rows.map fun p => (parKey p, p.pa))).join))) r = some (f r) := by
      intro r hrf
      have hr : r ∈ cci.rows := List.mem_of_mem_filter hrf
      obtain ⟨p, hp, hpk⟩ := hmatch r hr
      have := (hlook r hr).2 p hp hpk
      simp only [Function.comp]
      rw [this]
      exact hf r hr p hp hpk
    rw [List.filterMap_congr hfm]
    have : (fun r => some (f r)) = some ∘ f := rfl
    rw [this, List.filterMap_eq_map]

def cciW : Table CciRow :=
  ⟨requiredColsCci, [⟨"A", 5, "W", 0, some (1/2)⟩, ⟨"A", 5, "W", 1, some (1/4)⟩]⟩

def parW : Table ParRow :=
  ⟨requiredColsPar, [⟨"A", 5, "W", 0, some 1⟩, ⟨"A", 5, "W", 1, some (1/2)⟩]⟩

def fW : CciRow → ℚ := fun r => if r.x = 0 then 1/2 else 1/8

theorem qos_aggregation_witness :
    ∃ out : Table QosRow,
      calc_quality_of_service cciW parW = .ok out ∧
      (out.rows.map fun w => (w.location, w.week_start)) =
        dropDuplicates (cciW.rows.map fun r => (r.location, r.week_start)) ∧
      (out.rows.map fun w => (w.location, w.week_start)).Nodup ∧
      ∀ w ∈ out.rows, w.qos =
        ((cciW.rows.filter fun r =>
            r.location = w.location ∧ r.week_start = w.week_start).map fW).sum :=
  qos_aggregation cciW parW (by decide) (by decide) (by decide) (by decide)
    (by decide) fW
    (by
      intro r hr p hp hpk
      fin_cases hr <;> fin_cases hp <;>
        simp_all [optMul, cciKey, parKey, fW, cciW, parW] <;> norm_num)

/-! ## Structure of `create_product_inventory` (supporting C4 and C2) -/

instance : Inhabited InvCurveRow where
  default := ⟨"", "", 0, 0, "", [], []⟩

/-- The curve identity of an input row. -/
def idOf (r : InvCurveRow) : CurveIdRow :=
  ⟨r.location, r.inventory_curve_id, r.product, r.week_start⟩

/-- The input row carrying a given INVENTORY_CURVE_ID. -/
def rowOf (rows : List InvCurveRow) (cid : Nat) : InvCurveRow :=
  (rows.find? (fun r => r.inventory_curve_id = cid)).getD default

/-- The sample value of a curve at a minute, if that minute is sampled. -/
def sampleAt (r : InvCurveRow) (x : Int) : Option ℚ :=
  alookup x (r.X.zip r.Y)

/-- The value of the last sample of the curve at or before minute `x`. -/
def lastSampleLE (r : InvCurveRow) (x : Int) : Option ℚ :=
  (((r.X.zip r.Y).filter (fun q => q.1 ≤ x)).map Prod.snd).getLast?

theorem explodeList_inv_ok :
    ∀ {rows : List InvCurveRow} {ex : List InvPoint},
      explodeList explodeInvRow rows = .ok ex →
      ex = rows.flatMap invPoints ∧ ∀ r ∈ rows, r.X.length = r.Y.length := by
  intro rows
  induction rows with
  | nil =>
    intro ex h
    refine ⟨(Except.ok.inj h).symm, by simp⟩
  | cons r rest ih =>
    intro ex h
    unfold explodeList at h
    cases hr : explodeInvRow r with
    | error e => rw [hr] at h; cases h
    | ok ps =>
      rw [hr] at h
      cases hrest : explodeList explodeInvRow rest with
      | error e => rw [hrest] at h; cases h
      | ok qs =>
        rw [hrest] at h
        obtain ⟨hq, hlen⟩ := ih hrest
        have hps : ps = invPoints r ∧ r.X.length = r.Y.length := by
          unfold explodeInvRow at hr
          split_ifs at hr with hok
          exact ⟨(Except.ok.inj hr).symm, hok⟩
        refine ⟨?_, ?_⟩
        · rw [← Except.ok.inj h, hps.1, hq]
          rfl
        · intro r2 hr2
          rcases List.mem_cons.1 hr2 with rfl | hr3
          · exact hps.2
          · exact hlen r2 hr3

theorem checkBoundaries_ok_elim {xss : List (List Int)}
    (h : checkBoundaries xss = .ok ()) :
    ∀ xs ∈ xss, xs.min? = some 0 ∧ xs.max? = some 10079 := by
  unfold checkBoundaries at h
  by_cases h1 : xss.any (fun xs => decide (xs.min? ≠ some 0))
  · rw [if_pos h1] at h; cases h
  · rw [if_neg h1] at h
    by_cases h2 : xss.any (fun xs => decide (xs.max? ≠ some 10079))
    · rw [if_pos h2] at h; cases h
    · intro xs hxs
      simp only [List.any_eq_true, decide_eq_true_eq, not_exists, not_and,
        Decidable.not_not] at h1 h2
      exact ⟨h1 xs hxs, h2 xs hxs⟩

theorem create_ok_state {t : Table InvCurveRow} {out : Table PigRow}
    (h : create_product_inventory t = .ok out) :
    out.rows = invFilled (t.rows.flatMap invPoints) ∧
    (∀ r ∈ t.rows, r.X.length = r.Y.length) ∧
    (∀ r ∈ t.rows, r.X.min? = some 0 ∧ r.X.max? = some 10079) := by
  unfold create_product_inventory at h
  split at h
  · cases h
  · cases hb : checkBoundaries (t.rows.map fun r => r.X) with
    | error e => rw [hb] at h; cases h
    | ok u =>
      cases u
      rw [hb] at h
      cases hx : explodeList explodeInvRow t.rows with
      | error e => rw [hx] at h; cases h
      | ok ex =>
        rw [hx] at h
        obtain ⟨hex, hlen⟩ := explodeList_inv_ok hx
        have hbd := checkBoundaries_ok_elim hb
        refine ⟨?_, hlen, ?_⟩
        · rw [← Except.ok.inj h, hex]
        · intro r hr
          exact hbd r.X (List.mem_map_of_mem _ hr)

theorem mem_invPoints {p : InvPoint} {r : InvCurveRow} :
    p ∈ invPoints r ↔ ∃ q ∈ r.X.zip r.Y,
      p = ⟨r.location, r.product, r.inventory_curve_id,
        r.consumption_profile_curve_id, r.week_start, q.1, q.2⟩ := by
  simp only [invPoints, List.mem_map]
  constructor
  · rintro ⟨q, hq, rfl⟩; exact ⟨q, hq, rfl⟩
  · rintro ⟨q, hq, rfl⟩; exact ⟨q, hq, rfl⟩

/-- Fields of an exploded point of row `r`. -/
theorem invPoints_fields {p : InvPoint} {r : InvCurveRow} (h : p ∈ invPoints r) :
    p.location = r.location ∧ p.product = r.product ∧
    p.inventory_curve_id = r.inventory_curve_id ∧
    p.consumption_profile_curve_id = r.consumption_profile_curve_id ∧
    p.week_start = r.week_start ∧ (p.x, p.y) ∈ r.X.zip r.Y := by
  obtain ⟨q, hq, rfl⟩ := mem_invPoints.1 h
  exact ⟨rfl, rfl, rfl, rfl, rfl, hq⟩

/-- `rowOf` finds the unique row with a given id. -/
theorem rowOf_spec {rows : List InvCurveRow}
    (hids : (rows.map (fun r => r.inventory_curve_id)).Nodup)
    {r : InvCurveRow} (hr : r ∈ rows) : rowOf rows r.inventory_curve_id = r := by
  unfold rowOf
  cases hf : rows.find? (fun r2 => r2.inventory_curve_id = r.inventory_curve_id) with
  | none =>
    have := List.find?_eq_none.1 hf r hr
    simp at this
  | some r2 =>
    have hmem := List.mem_of_find?_eq_some hf
    have hpred := List.find?_some hf
    simp only [decide_eq_true_eq] at hpred
    have := List.inj_on_of_nodup_map hids hmem hr hpred
    simp [this]

theorem nodup_invPoints {r : InvCurveRow} (hx : r.X.Nodup)
    (hlen : r.X.length = r.Y.length) : (invPoints r).Nodup := by
  unfold invPoints
  refine List.Nodup.map_on ?_ ?_
  · intro q1 h1 q2 h2 heq
    have hfst : q1.1 = q2.1 := congrArg InvPoint.x heq
    have hsnd : q1.2 = q2.2 := congrArg InvPoint.y heq
    exact Prod.ext hfst hsnd
  · rw [← List.map_fst_zip r.X r.Y (le_of_eq hlen)] at hx
    exact hx.of_map Prod.fst

theorem flatMap_congr {α β : Type} {l : List α} {f g : α → List β}
    (h : ∀ a ∈ l, f a = g a) : l.flatMap f = l.flatMap g := by
  induction l with
  | nil => rfl
  | cons a as ih =>
    simp only [List.flatMap_cons, h a (List.mem_cons_self a as)]
    rw [ih fun a2 ha2 => h a2 (List.mem_cons_of_mem _ ha2)]

theorem flatMap_singletons {α β : Type} {l : List α} {f : α → List β} {g : α → β}
    (h : ∀ a ∈ l, f a = [g a]) : l.flatMap f = l.map g := by
  induction l with
  | nil => rfl
  | cons a as ih =>
    simp only [List.flatMap_cons, h a (List.mem_cons_self a as), List.map_cons,
      List.singleton_append]
    rw [ih fun a2 ha2 => h a2 (List.mem_cons_of_mem _ ha2)]

theorem nodup_all_eq {α : Type} {l : List α} {a : α} (hnd : l.Nodup)
    (h : ∀ b ∈ l, b = a) : l = [] ∨ l = [a] := by
  cases l with
  | nil => exact Or.inl rfl
  | cons b bs =>
    right
    have hb : b = a := h b (List.mem_cons_self b bs)
    subst hb
    cases bs with
    | nil => rfl
    | cons c cs =>
      have hc : c = b := h c (List.mem_cons_of_mem _ (List.mem_cons_self c cs))
      subst hc
      simp at hnd

theorem mem_invCurveIds {ex : List InvPoint} {c : CurveIdRow} :
    c ∈ invCurveIds ex ↔ ∃ p ∈ ex,
      c = ⟨p.location, p.inventory_curve_id, p.product, p.week_start⟩ := by
  unfold invCurveIds
  rw [mem_dropDuplicates]
  constructor
  · intro h
    obtain ⟨p, hp, hpe⟩ := List.mem_map.1 h
    exact ⟨p, hp, hpe.symm⟩
  · rintro ⟨p, hp, rfl⟩
    exact List.mem_map.2 ⟨p, hp, rfl⟩

theorem mem_invTimePoints {ex : List InvPoint} {tp : TimePointRow} :
    tp ∈ invTimePoints ex ↔ ∃ p ∈ ex, tp = ⟨p.location, p.week_start, p.x⟩ := by
  unfold invTimePoints
  rw [mem_dropDuplicates]
  constructor
  · intro h
    obtain ⟨p, hp, hpe⟩ := List.mem_map.1 h
    exact ⟨p, hp, hpe.symm⟩
  · rintro ⟨p, hp, rfl⟩
    exact List.mem_map.2 ⟨p, hp, rfl⟩

/-- Every time point has at least one matching curve identity, so the first
left join never produces a null-identity row. -/
theorem invGrid_matches_nonempty {ex : List InvPoint} {tp : TimePointRow}
    (htp : tp ∈ invTimePoints ex) :
    (invCurveIds ex).filter (fun c =>
      c.location = tp.location ∧ c.week_start = tp.week_start) ≠ [] := by
  obtain ⟨p, hp, rfl⟩ := mem_invTimePoints.1 htp
  have hc : (⟨p.location, p.inventory_curve_id, p.product, p.week_start⟩ : CurveIdRow) ∈
      invCurveIds ex := mem_invCurveIds.2 ⟨p, hp, rfl⟩
  intro hempty
  have : (⟨p.location, p.inventory_curve_id, p.product, p.week_start⟩ : CurveIdRow) ∈
      (invCurveIds ex).filter (fun c =>
        c.location = p.location ∧ c.week_start = p.week_start) := by
    rw [List.mem_filter]
    exact ⟨hc, by simp⟩
  rw [hempty] at this
  cases this

theorem invTimePointGrid_eq (ex : List InvPoint) :
    invTimePointGrid ex = (invTimePoints ex).flatMap fun tp =>
      ((invCurveIds ex).filter (fun c =>
        c.location = tp.location ∧ c.week_start = tp.week_start)).map fun c =>
        ⟨tp.location, tp.week_start, tp.x, some (c.inventory_curve_id, c.product),
          none, none⟩ := by
  unfold invTimePointGrid
  refine flatMap_congr ?_
  intro tp htp
  rw [if_neg (by simpa [List.isEmpty_iff] using invGrid_matches_nonempty htp)]

theorem mem_invTimePointGrid {ex : List InvPoint} {g : PigRow} :
    g ∈ invTimePointGrid ex ↔ ∃ tp ∈ invTimePoints ex, ∃ c ∈ invCurveIds ex,
      c.location = tp.location ∧ c.week_start = tp.week_start ∧
      g = ⟨tp.location, tp.week_start, tp.x,
        some (c.inventory_curve_id, c.product), none, none⟩ := by
  rw [invTimePointGrid_eq, List.mem_flatMap]
  constructor
  · rintro ⟨tp, htp, hg⟩
    obtain ⟨c, hcf, rfl⟩ := List.mem_map.1 hg
    rw [List.mem_filter] at hcf
    refine ⟨tp, htp, c, hcf.1, ?_, ?_, rfl⟩
    · have := hcf.2
      simp only [decide_eq_true_eq] at this
      exact this.1
    · have := hcf.2
      simp only [decide_eq_true_eq] at this
      exact this.2
  · rintro ⟨tp, htp, c, hc, h1, h2, rfl⟩
    refine ⟨tp, htp, List.mem_map.2 ⟨c, ?_, rfl⟩⟩
    rw [List.mem_filter]
    exact ⟨hc, by simp [h1, h2]⟩

theorem sampleAt_mem_iff {r : InvCurveRow} (hx : r.X.Nodup)
    (hlen : r.X.length = r.Y.length) {x : Int} {v : ℚ} :
    (x, v) ∈ r.X.zip r.Y ↔ sampleAt r x = some v := by
  constructor
  · intro h
    refine alookup_eq_some_of_mem ?_ h
    rw [List.map_fst_zip r.X r.Y (le_of_eq hlen)]
    exact hx
  · exact alookup_mem

theorem exploded_point_row {rows : List InvCurveRow}
    (hids : (rows.map (fun r => r.inventory_curve_id)).Nodup)
    {p : InvPoint} (hp : p ∈ rows.flatMap invPoints) :
    p ∈ invPoints (rowOf rows p.inventory_curve_id) ∧
      rowOf rows p.inventory_curve_id ∈ rows := by
  obtain ⟨r, hr, hpr⟩ := List.mem_flatMap.1 hp
  have hid : p.inventory_curve_id = r.inventory_curve_id :=
    (invPoints_fields hpr).2.2.1
  rw [hid, rowOf_spec hids hr]
  exact ⟨hpr, hr⟩

theorem invCurveIds_eq_idOf {rows : List InvCurveRow}
    (hids : (rows.map (fun r => r.inventory_curve_id)).Nodup)
    {c : CurveIdRow} (hc : c ∈ invCurveIds (rows.flatMap invPoints)) :
    c = idOf (rowOf rows c.inventory_curve_id) ∧
      rowOf rows c.inventory_curve_id ∈ rows := by
  obtain ⟨p, hp, rfl⟩ := mem_invCurveIds.1 hc
  obtain ⟨hpr, hrow⟩ := exploded_point_row hids hp
  obtain ⟨h1, h2, h3, h4, h5, h6⟩ := invPoints_fields hpr
  refine ⟨?_, hrow⟩
  simp only [idOf, CurveIdRow.mk.injEq]
  exact ⟨h1, h3, h2, h5⟩

theorem nodup_exploded {rows : List InvCurveRow}
    (hids : (rows.map (fun r => r.inventory_curve_id)).Nodup)
    (hlen : ∀ r ∈ rows, r.X.length = r.Y.length)
    (hxnd : ∀ r ∈ rows, r.X.Nodup) :
    (rows.flatMap invPoints).Nodup := by
  rw [List.nodup_flatMap]
  refine ⟨fun r hr => nodup_invPoints (hxnd r hr) (hlen r hr), ?_⟩
  have hpw : List.Pairwise
      (fun a b : InvCurveRow => a.inventory_curve_id ≠ b.inventory_curve_id) rows :=
    List.pairwise_map.1 hids
  refine hpw.imp ?_
  intro a b hne p hpa hpb
  have ha := (invPoints_fields hpa).2.2.1
  have hb := (invPoints_fields hpb).2.2.1
  exact hne (ha ▸ hb ▸ rfl)

/-- The second left join, resolved per grid row: attach the sample value
and CONSUMPTION_PROFILE_CURVE_ID of the row's curve at the row's minute. -/
def jFun (rows : List InvCurveRow) (g : PigRow) : PigRow :=
  match g.ident with
  | none => g
  | some cp =>
    match sampleAt (rowOf rows cp.1) g.x with
    | some v =>
      { g with
        cpc := some (rowOf rows cp.1).consumption_profile_curve_id
        y := some v }
    | none => g

theorem invJoined_eq {rows : List InvCurveRow}
    (hids : (rows.map (fun r => r.inventory_curve_id)).Nodup)
    (hlen : ∀ r ∈ rows, r.X.length = r.Y.length)
    (hxnd : ∀ r ∈ rows, r.X.Nodup) :
    invJoined (rows.flatMap invPoints) =
      (invTimePointGrid (rows.flatMap invPoints)).map (jFun rows) := by
  unfold invJoined
  refine flatMap_singletons ?_
  intro g hg
  obtain ⟨tp, htp, c, hc, hloc, hweek, rfl⟩ := mem_invTimePointGrid.1 hg
  obtain ⟨hcid, hcrow⟩ := invCurveIds_eq_idOf hids hc
  have hrloc : c.location = (rowOf rows c.inventory_curve_id).location :=
    congrArg CurveIdRow.location hcid
  have hrprod : c.product = (rowOf rows c.inventory_curve_id).product :=
    congrArg CurveIdRow.product hcid
  have hrweek : c.week_start = (rowOf rows c.inventory_curve_id).week_start :=
    congrArg CurveIdRow.week_start hcid
  have hrid : c.inventory_curve_id =
      (rowOf rows c.inventory_curve_id).inventory_curve_id :=
    congrArg CurveIdRow.inventory_curve_id hcid
  have hrnd : (rowOf rows c.inventory_curve_id).X.Nodup := hxnd _ hcrow
  have hrlen : (rowOf rows c.inventory_curve_id).X.length =
      (rowOf rows c.inventory_curve_id).Y.length := hlen _ hcrow
  have hms : (rows.flatMap invPoints).filter (fun e =>
      e.location = tp.location ∧
        e.inventory_curve_id = c.inventory_curve_id ∧
        e.week_start = tp.week_start ∧ e.product = c.product ∧ e.x = tp.x) =
      match sampleAt (rowOf rows c.inventory_curve_id) tp.x with
      | some v => [⟨(rowOf rows c.inventory_curve_id).location,
          (rowOf rows c.inventory_curve_id).product,
          (rowOf rows c.inventory_curve_id).inventory_curve_id,
          (rowOf rows c.inventory_curve_id).consumption_profile_curve_id,
          (rowOf rows c.inventory_curve_id).week_start, tp.x, v⟩]
      | none => [] := by
    have hall : ∀ e ∈ (rows.flatMap invPoints).filter (fun e =>
        e.location = tp.location ∧
          e.inventory_curve_id = c.inventory_curve_id ∧
          e.week_start = tp.week_start ∧ e.product = c.product ∧ e.x = tp.x),
        sampleAt (rowOf rows c.inventory_curve_id) tp.x = some e.y ∧
        e = ⟨(rowOf rows c.inventory_curve_id).location,
          (rowOf rows c.inventory_curve_id).product,
          (rowOf rows c.inventory_curve_id).inventory_curve_id,
          (rowOf rows c.inventory_curve_id).consumption_profile_curve_id,
          (rowOf rows c.inventory_curve_id).week_start, tp.x, e.y⟩ := by
      intro e hef
      rw [List.mem_filter] at hef
      obtain ⟨hex, hconds⟩ := hef
      simp only [decide_eq_true_eq] at hconds
      obtain ⟨he1, he2, he3, he4, he5⟩ := hconds
      obtain ⟨hpr, _⟩ := exploded_point_row hids hex
      rw [he2] at hpr
      obtain ⟨hf1, hf2, hf3, hf4, hf5, hf6⟩ := invPoints_fields hpr
      have hsome : sampleAt (rowOf rows c.inventory_curve_id) tp.x = some e.y := by
        rw [← he5]
        exact (sampleAt_mem_iff hrnd hrlen).1 hf6
      refine ⟨hsome, ?_⟩
      cases e
      simp only [InvPoint.mk.injEq]
      exact ⟨hf1, hf2, hf3, hf4, hf5, he5, trivial⟩
    have hnd := List.Nodup.filter (fun e : InvPoint =>
        decide (e.location = tp.location ∧
          e.inventory_curve_id = c.inventory_curve_id ∧
          e.week_start = tp.week_start ∧ e.product = c.product ∧ e.x = tp.x))
      (nodup_exploded hids hlen hxnd)
    cases hs : sampleAt (rowOf rows c.inventory_curve_id) tp.x with
    | none =>
      cases hfe : (rows.flatMap invPoints).filter (fun e =>
          e.location = tp.location ∧
            e.inventory_curve_id = c.inventory_curve_id ∧
            e.week_start = tp.week_start ∧ e.product = c.product ∧ e.x = tp.x) with
      | nil => rfl
      | cons e es =>
        have := (hall e (by rw [hfe]; exact List.mem_cons_self e es)).1
        rw [hs] at this
        cases this
    | some v =>
      have hpt : (⟨(rowOf rows c.inventory_curve_id).location,
          (rowOf rows c.inventory_curve_id).product,
          (rowOf rows c.inventory_curve_id).inventory_curve_id,
          (rowOf rows c.inventory_curve_id).consumption_profile_curve_id,
          (rowOf rows c.inventory_curve_id).week_start, tp.x, v⟩ : InvPoint) ∈
          (rows.flatMap invPoints).filter (fun e =>
            e.location = tp.location ∧
              e.inventory_curve_id = c.inventory_curve_id ∧
              e.week_start = tp.week_start ∧ e.product = c.product ∧ e.x = tp.x) := by
        rw [List.mem_filter]
        constructor
        · refine List.mem_flatMap.2 ⟨rowOf rows c.inventory_curve_id, hcrow, ?_⟩
          refine mem_invPoints.2 ⟨(tp.x, v), ?_, rfl⟩
          exact (sampleAt_mem_iff hrnd hrlen).2 hs
        · simp only [decide_eq_true_eq]
          refine ⟨by rw [← hrloc, hloc], by rw [← hrid], by rw [← hrweek, hweek],
            by rw [← hrprod], trivial⟩
      have hae : ∀ b ∈ (rows.flatMap invPoints).filter (fun e =>
          e.location = tp.location ∧
            e.inventory_curve_id = c.inventory_curve_id ∧
            e.week_start = tp.week_start ∧ e.product = c.product ∧ e.x = tp.x),
          b = ⟨(rowOf rows c.inventory_curve_id).location,
            (rowOf rows c.inventory_curve_id).product,
            (rowOf rows c.inventory_curve_id).inventory_curve_id,
            (rowOf rows c.inventory_curve_id).consumption_profile_curve_id,
            (rowOf rows c.inventory_curve_id).week_start, tp.x, v⟩ := by
        intro b hb
        obtain ⟨hsome, hbe⟩ := hall b hb
        rw [hs] at hsome
        have : v = b.y := Option.some.inj hsome
        rw [hbe, ← this]
      rcases nodup_all_eq hnd hae with hnil | hone
      · rw [hnil] at hpt
        cases hpt
      · exact hone
  show (let ms := (rows.flatMap invPoints).filter fun e =>
        e.location = tp.location ∧
          e.inventory_curve_id = c.inventory_curve_id ∧
          e.week_start = tp.week_start ∧ e.product = c.product ∧ e.x = tp.x
      if ms.isEmpty then
        [(⟨tp.location, tp.week_start, tp.x,
          some (c.inventory_curve_id, c.product), none, none⟩ : PigRow)]
      else ms.map fun e =>
        ⟨tp.location, tp.week_start, tp.x, some (c.inventory_curve_id, c.product),
          some e.consumption_profile_curve_id, some e.y⟩) =
    [jFun rows ⟨tp.location, tp.week_start, tp.x,
      some (c.inventory_curve_id, c.product), none, none⟩]
  simp only []
  rw [hms]
  unfold jFun
  cases hs : sampleAt (rowOf rows c.inventory_curve_id) tp.x with
  | none => simp [hs]
  | some v => simp [hs]

/-! ### The sort and forward-fill of `create_product_inventory` (lines 85-92) -/

theorem filterMap_eq_filter_isSome {α β : Type} (f : α → Option β) :
    ∀ l : List α, l.filterMap f = (l.filter (fun a => (f a).isSome)).filterMap f := by
  intro l
  induction l with
  | nil => rfl
  | cons a as ih =>
    cases hf : f a with
    | none => simp [List.filterMap_cons, List.filter_cons, hf, ← ih]
    | some b => simp [List.filterMap_cons, List.filter_cons, hf, ← ih]

theorem mem_zip_left {α β : Type} {x : α} :
    ∀ {l : List α} {m : List β}, x ∈ l → l.length = m.length →
      ∃ y, (x, y) ∈ l.zip m := by
  intro l
  induction l with
  | nil => intro m h _; cases h
  | cons a as ih =>
    intro m h hl
    cases m with
    | nil => cases hl
    | cons b bs =>
      rcases List.mem_cons.1 h with rfl | h2
      · exact ⟨b, List.mem_cons_self _ _⟩
      · obtain ⟨y, hy⟩ := ih h2 (Nat.succ.inj hl)
        exact ⟨y, List.mem_cons_of_mem _ hy⟩

theorem alookup_isSome_of_mem {κ β : Type} [DecidableEq κ] {k : κ} :
    ∀ {l : List (κ × β)}, k ∈ l.map Prod.fst → (alookup k l).isSome = true := by
  intro l
  induction l with
  | nil => intro h; cases h
  | cons ab rest ih =>
    intro h
    obtain ⟨a, b⟩ := ab
    rw [List.map_cons] at h
    by_cases hk : a = k
    · simp [alookup, hk]
    · rcases List.mem_cons.1 h with rfl | h2
      · exact absurd rfl hk
      · simpa [alookup, hk] using ih h2

theorem foldl_min_le : ∀ (as : List Int) (a : Int),
    as.foldl min a ≤ a ∧ ∀ b ∈ as, as.foldl min a ≤ b := by
  intro as
  induction as with
  | nil => intro a; exact ⟨le_refl a, by simp⟩
  | cons c cs ih =>
    intro a
    rw [List.foldl_cons]
    obtain ⟨h1, h2⟩ := ih (min a c)
    refine ⟨le_trans h1 (min_le_left a c), ?_⟩
    intro b hb
    rcases List.mem_cons.1 hb with rfl | hb2
    · exact le_trans h1 (min_le_right a b)
    · exact h2 b hb2

theorem min?_le_of_mem {b : Int} :
    ∀ {xs : List Int} {m : Int}, xs.min? = some m → b ∈ xs → m ≤ b := by
  intro xs
  induction xs with
  | nil => intro m h _; cases h
  | cons a as ih =>
    intro m h hb
    rw [List.min?_cons] at h
    cases has : as.min? with
    | none =>
      rw [has] at h
      have hma : a = m := Option.some.inj h
      have hempty : as = [] := List.min?_eq_none_iff.1 has
      subst hempty
      rcases List.mem_cons.1 hb with rfl | hb2
      · exact le_of_eq hma.symm
      · cases hb2
    | some m2 =>
      rw [has] at h
      have hm : m = min a m2 := (Option.some.inj h).symm
      rcases List.mem_cons.1 hb with rfl | hb2
      · rw [hm]; exact min_le_left _ _
      · rw [hm]; exact le_trans (min_le_right _ _) (ih has hb2)

theorem min?_mem_int {m : Int} {xs : List Int} (h : xs.min? = some m) : m ∈ xs :=
  List.min?_mem (fun a b => min_choice a b) h

/-- `map snd` of a ≤-filter of an association list, through its keys. -/
theorem map_snd_filter_le {t : Int} :
    ∀ {l : List (Int × ℚ)}, (l.map Prod.fst).Nodup →
      (l.filter (fun q => q.1 ≤ t)).map Prod.snd =
        ((l.map Prod.fst).filter (fun x => x ≤ t)).filterMap
          (fun x => alookup x l) := by
  intro l
  induction l with
  | nil => intro _; rfl
  | cons ab rest ih =>
    intro hnd
    obtain ⟨a, b⟩ := ab
    rw [List.map_cons, List.nodup_cons] at hnd
    obtain ⟨ha, hnd2⟩ := hnd
    have hcongr : ∀ x ∈ (rest.map Prod.fst).filter (fun x => decide (x ≤ t)),
        alookup x ((a, b) :: rest) = alookup x rest := by
      intro x hx
      have hxm : x ∈ rest.map Prod.fst := (List.mem_filter.1 hx).1
      have hxa : ¬ a = x := fun h => ha (h ▸ hxm)
      simp [alookup, hxa]
    have hla : alookup a ((a, b) :: rest) = some b := by simp [alookup]
    by_cases hat : a ≤ t
    · simp only [List.map_cons, List.filter_cons]
      norm_num [hat]
      rw [List.filterMap_cons, hla, List.filterMap_congr hcongr, ih hnd2]
    · simp only [List.map_cons, List.filter_cons]
      norm_num [hat]
      rw [List.filterMap_congr hcongr, ih hnd2]

/-- `lePig` written out (definitional). -/
theorem lePig_eq (a b : PigRow) : lePig a b =
    (if a.ident.map Prod.fst = b.ident.map Prod.fst then decide (a.x ≤ b.x)
    else match a.ident.map Prod.fst, b.ident.map Prod.fst with
      | some m, some n => decide (m < n)
      | some _, none => true
      | none, _ => false) := rfl

theorem lePig_total (a b : PigRow) : (lePig a b || lePig b a) = true := by
  rw [lePig_eq, lePig_eq]
  by_cases h : a.ident.map Prod.fst = b.ident.map Prod.fst
  · rw [if_pos h, if_pos h.symm]
    simp only [Bool.or_eq_true, decide_eq_true_eq]
    exact le_total a.x b.x
  · rw [if_neg h, if_neg (fun h2 => h h2.symm)]
    cases ha : a.ident.map Prod.fst with
    | none =>
      cases hb : b.ident.map Prod.fst with
      | none => exact absurd (ha.trans hb.symm) h
      | some n => simp
    | some m =>
      cases hb : b.ident.map Prod.fst with
      | none => simp
      | some n =>
        have hmn : m ≠ n := by
          rintro rfl
          exact h (ha.trans hb.symm)
        simp only [Bool.or_eq_true, decide_eq_true_eq]
        omega

theorem lePig_trans (a b c : PigRow) (hab : lePig a b = true)
    (hbc : lePig b c = true) : lePig a c = true := by
  rw [lePig_eq] at hab hbc ⊢
  by_cases h1 : a.ident.map Prod.fst = b.ident.map Prod.fst
  · rw [if_pos h1] at hab
    by_cases h2 : b.ident.map Prod.fst = c.ident.map Prod.fst
    · rw [if_pos h2] at hbc
      rw [if_pos (h1.trans h2)]
      simp only [decide_eq_true_eq] at hab hbc ⊢
      exact le_trans hab hbc
    · rw [if_neg h2] at hbc
      rw [if_neg (fun h => h2 (h1.symm.trans h)), h1]
      exact hbc
  · rw [if_neg h1] at hab
    by_cases h2 : b.ident.map Prod.fst = c.ident.map Prod.fst
    · rw [if_neg (fun h => h1 (h.trans h2.symm)), ← h2]
      exact hab
    · rw [if_neg h2] at hbc
      cases ha : a.ident.map Prod.fst with
      | none =>
        cases hb : b.ident.map Prod.fst with
        | none => exact absurd (ha.trans hb.symm) h1
        | some n => rw [ha, hb] at hab; cases hab
      | some m =>
        cases hb : b.ident.map Prod.fst with
        | none => rw [hb] at hbc; cases hc : c.ident.map Prod.fst <;>
            rw [hc] at hbc <;> cases hbc
        | some n =>
          rw [ha, hb] at hab
          simp only [decide_eq_true_eq] at hab
          cases hc : c.ident.map Prod.fst with
          | none =>
            rw [if_neg (fun hco => Option.noConfusion hco)]
          | some p =>
            rw [hb, hc] at hbc
            simp only [decide_eq_true_eq] at hbc
            rw [if_neg (fun hco => by cases hco; omega)]
            simp only [decide_eq_true_eq]
            omega

theorem lePig_x {a b : PigRow} (hk : a.ident.map Prod.fst = b.ident.map Prod.fst)
    (h : lePig a b = true) : a.x ≤ b.x := by
  rw [lePig_eq, if_pos hk] at h
  exact of_decide_eq_true h

theorem nodup_invCurveIds (ex : List InvPoint) : (invCurveIds ex).Nodup :=
  nodup_dropDuplicates _

theorem nodup_invTimePoints (ex : List InvPoint) : (invTimePoints ex).Nodup :=
  nodup_dropDuplicates _

/-- The second join leaves the key columns of a grid row untouched. -/
theorem jFun_fields (rows : List InvCurveRow) (g : PigRow) :
    (jFun rows g).location = g.location ∧ (jFun rows g).week_start = g.week_start ∧
      (jFun rows g).x = g.x ∧ (jFun rows g).ident = g.ident := by
  obtain ⟨l, w, x, idf, cpcf, yf⟩ := g
  cases idf with
  | none => exact ⟨rfl, rfl, rfl, rfl⟩
  | some cp =>
    cases hs : sampleAt (rowOf rows cp.1) x with
    | none => simp [jFun, hs]
    | some v => simp [jFun, hs]

/-- The second join on a fresh grid row, written out. -/
theorem jFun_eq (rows : List InvCurveRow) {g0 : PigRow} {cid : Nat} {prod : String}
    (hident : g0.ident = some (cid, prod)) (hcpc : g0.cpc = none)
    (hy : g0.y = none) :
    jFun rows g0 = ⟨g0.location, g0.week_start, g0.x, some (cid, prod),
      (sampleAt (rowOf rows cid) g0.x).map
        (fun _ => (rowOf rows cid).consumption_profile_curve_id),
      sampleAt (rowOf rows cid) g0.x⟩ := by
  unfold jFun
  rw [hident]
  show (match sampleAt (rowOf rows cid) g0.x with
    | some v => (⟨g0.location, g0.week_start, g0.x, some (cid, prod),
        some (rowOf rows cid).consumption_profile_curve_id, some v⟩ : PigRow)
    | none => g0) = _
  cases hs : sampleAt (rowOf rows cid) g0.x with
  | none =>
    cases g0
    simp_all
  | some v =>
    cases g0
    simp_all

theorem grid_row_fields {ex : List InvPoint} {g : PigRow}
    (hg : g ∈ invTimePointGrid ex) :
    g.cpc = none ∧ g.y = none ∧
      (⟨g.location, g.week_start, g.x⟩ : TimePointRow) ∈ invTimePoints ex := by
  obtain ⟨tp, htp, c, hc, h1, h2, rfl⟩ := mem_invTimePointGrid.1 hg
  exact ⟨rfl, rfl, htp⟩

/-- The curve identity carried by a non-null grid row is one of the
`curve_ids` rows. -/
theorem grid_ident_curve {ex : List InvPoint} {g : PigRow} {cid : Nat}
    {prod : String} (hg : g ∈ invTimePointGrid ex)
    (hid : g.ident = some (cid, prod)) :
    (⟨g.location, cid, prod, g.week_start⟩ : CurveIdRow) ∈ invCurveIds ex := by
  obtain ⟨tp, htp, c, hc, h1, h2, rfl⟩ := mem_invTimePointGrid.1 hg
  have hpair : (c.inventory_curve_id, c.product) = (cid, prod) :=
    Option.some.inj hid
  have hcid : c.inventory_curve_id = cid := congrArg Prod.fst hpair
  have hprod : c.product = prod := congrArg Prod.snd hpair
  show (⟨tp.location, cid, prod, tp.week_start⟩ : CurveIdRow) ∈ invCurveIds ex
  have hceq : (⟨tp.location, cid, prod, tp.week_start⟩ : CurveIdRow) = c := by
    cases c
    simp_all
  rw [hceq]
  exact hc

theorem nodup_invTimePointGrid (ex : List InvPoint) :
    (invTimePointGrid ex).Nodup := by
  rw [invTimePointGrid_eq, List.nodup_flatMap]
  constructor
  · intro tp htp
    refine List.Nodup.map_on ?_
      (List.Nodup.filter (fun c : CurveIdRow =>
        decide (c.location = tp.location ∧ c.week_start = tp.week_start))
        (nodup_invCurveIds ex))
    intro c1 h1 c2 h2 heq
    have hi := congrArg PigRow.ident heq
    simp only [Option.some.injEq, Prod.mk.injEq] at hi
    rw [List.mem_filter] at h1 h2
    have hl1 := h1.2
    have hl2 := h2.2
    simp only [decide_eq_true_eq] at hl1 hl2
    cases c1
    cases c2
    simp_all
  · refine (nodup_invTimePoints ex).imp ?_
    intro tp1 tp2 hne
    intro g hg1 hg2
    obtain ⟨c1, hc1, rfl⟩ := List.mem_map.1 hg1
    obtain ⟨c2, hc2, he⟩ := List.mem_map.1 hg2
    apply hne
    have e1 := congrArg PigRow.location he
    have e2 := congrArg PigRow.week_start he
    have e3 := congrArg PigRow.x he
    cases tp1
    cases tp2
    simp_all

theorem nodup_joined (rows : List InvCurveRow) :
    ((invTimePointGrid (rows.flatMap invPoints)).map (jFun rows)).Nodup := by
  refine List.Nodup.map_on ?_ (nodup_invTimePointGrid _)
  intro g1 h1 g2 h2 heq
  have e1 : g1.location = g2.location := by
    rw [← (jFun_fields rows g1).1, ← (jFun_fields rows g2).1, heq]
  have e2 : g1.week_start = g2.week_start := by
    rw [← (jFun_fields rows g1).2.1, ← (jFun_fields rows g2).2.1, heq]
  have e3 : g1.x = g2.x := by
    rw [← (jFun_fields rows g1).2.2.1, ← (jFun_fields rows g2).2.2.1, heq]
  have e4 : g1.ident = g2.ident := by
    rw [← (jFun_fields rows g1).2.2.2, ← (jFun_fields rows g2).2.2.2, heq]
  obtain ⟨hc1, hy1, -⟩ := grid_row_fields h1
  obtain ⟨hc2, hy2, -⟩ := grid_row_fields h2
  cases g1
  cases g2
  simp_all

/-- A row of the sorted joined grid carrying curve id `cid` is fully
determined by its minute: it is the fill row of the unique input curve with
that id, and its minute is one of that curve's (location, week) time points. -/
theorem sorted_member_decomp {rows : List InvCurveRow}
    (hids : (rows.map (fun r => r.inventory_curve_id)).Nodup)
    (hlen : ∀ r ∈ rows, r.X.length = r.Y.length)
    (hxnd : ∀ r ∈ rows, r.X.Nodup)
    {h : PigRow} (hmem : h ∈ sortValues lePig (invJoined (rows.flatMap invPoints)))
    {cid : Nat} {prodh : String} (hident : h.ident = some (cid, prodh)) :
    rowOf rows cid ∈ rows ∧ (rowOf rows cid).inventory_curve_id = cid ∧
      idOf (rowOf rows cid) ∈ invCurveIds (rows.flatMap invPoints) ∧
      (⟨(rowOf rows cid).location, (rowOf rows cid).week_start, h.x⟩ : TimePointRow)
        ∈ invTimePoints (rows.flatMap invPoints) ∧
      h = ⟨(rowOf rows cid).location, (rowOf rows cid).week_start, h.x,
        some (cid, (rowOf rows cid).product),
        (sampleAt (rowOf rows cid) h.x).map
          (fun _ => (rowOf rows cid).consumption_profile_curve_id),
        sampleAt (rowOf rows cid) h.x⟩ := by
  rw [mem_sortValues, invJoined_eq hids hlen hxnd] at hmem
  obtain ⟨g0, hg0, rfl⟩ := List.mem_map.1 hmem
  have hid0 : g0.ident = some (cid, prodh) := by
    rw [← (jFun_fields rows g0).2.2.2, hident]
  obtain ⟨hcpc0, hy0, htp0⟩ := grid_row_fields hg0
  have hcmem : (⟨g0.location, cid, prodh, g0.week_start⟩ : CurveIdRow)
      ∈ invCurveIds (rows.flatMap invPoints) := grid_ident_curve hg0 hid0
  obtain ⟨hcidof, hrmem⟩ := invCurveIds_eq_idOf hids hcmem
  have hloc : g0.location = (rowOf rows cid).location :=
    congrArg CurveIdRow.location hcidof
  have hcid2 : cid = (rowOf rows cid).inventory_curve_id :=
    congrArg CurveIdRow.inventory_curve_id hcidof
  have hprod : prodh = (rowOf rows cid).product :=
    congrArg CurveIdRow.product hcidof
  have hweek : g0.week_start = (rowOf rows cid).week_start :=
    congrArg CurveIdRow.week_start hcidof
  refine ⟨hrmem, hcid2.symm, ?_, ?_, ?_⟩
  · rw [← hcidof]
    exact hcmem
  · have hx : (jFun rows g0).x = g0.x := (jFun_fields rows g0).2.2.1
    rw [hx, ← hloc, ← hweek]
    exact htp0
  · rw [jFun_eq rows hid0 hcpc0 hy0]
    simp [← hloc, ← hweek, ← hprod]

/-- Within the sorted grid, the forward-fill lookup for a row's curve id over
the preceding rows is the last sample of that curve at or before the row's
minute. -/
theorem lastHit_sorted {rows : List InvCurveRow}
    (hids : (rows.map (fun r => r.inventory_curve_id)).Nodup)
    (hlen : ∀ r ∈ rows, r.X.length = r.Y.length)
    (hchain : ∀ r ∈ rows, r.X.Chain' (· < ·))
    {i : Nat}
    (hi : i < (sortValues lePig (invJoined (rows.flatMap invPoints))).length)
    {cid : Nat} {prodh : String}
    (hident :
      ((sortValues lePig (invJoined (rows.flatMap invPoints))).get ⟨i, hi⟩).ident
        = some (cid, prodh)) :
    lastHit (fun h : PigRow => h.ident.map Prod.fst) (fun h : PigRow => h.y) cid
        ((sortValues lePig (invJoined (rows.flatMap invPoints))).take (i + 1)) =
      lastSampleLE (rowOf rows cid)
        ((sortValues lePig (invJoined (rows.flatMap invPoints))).get ⟨i, hi⟩).x := by
  have hxnd : ∀ r ∈ rows, r.X.Nodup := fun r hr =>
    ((List.chain'_iff_pairwise.1 (hchain r hr)).imp (fun hlt => ne_of_lt hlt))
  set S := sortValues lePig (invJoined (rows.flatMap invPoints)) with hSdef
  set g := S.get ⟨i, hi⟩ with hgdef
  set cr := rowOf rows cid with hcrdef
  have hperm : S.Perm (invJoined (rows.flatMap invPoints)) := perm_sortValues _ _
  have hpair : S.Pairwise (fun a b => lePig a b = true) :=
    pairwise_sortValues lePig_trans lePig_total _
  have hSnd : S.Nodup := by
    rw [hperm.nodup_iff, invJoined_eq hids hlen hxnd]
    exact nodup_joined rows
  have hgS : g ∈ S := List.get_mem S i hi
  have hkg : g.ident.map Prod.fst = some cid := by rw [hident]; rfl
  obtain ⟨hrmem, hrid, hcmem, htpg, hgeq⟩ :=
    sorted_member_decomp hids hlen hxnd hgS hident
  have hrid2 : cr.inventory_curve_id = cid := by rw [hcrdef]; exact hrid
  have hU : ∀ h ∈ S, h.ident.map Prod.fst = some cid →
      h = ⟨cr.location, cr.week_start, h.x, some (cid, cr.product),
        (sampleAt cr h.x).map (fun _ => cr.consumption_profile_curve_id),
        sampleAt cr h.x⟩ ∧
      (⟨cr.location, cr.week_start, h.x⟩ : TimePointRow)
        ∈ invTimePoints (rows.flatMap invPoints) := by
    intro h hh hkey
    obtain ⟨p, hp⟩ : ∃ p : String, h.ident = some (cid, p) := by
      cases hid : h.ident with
      | none => rw [hid] at hkey; cases hkey
      | some cp =>
        refine ⟨cp.2, ?_⟩
        rw [hid] at hkey
        have h1 : cp.1 = cid := by simpa using hkey
        cases cp
        rw [← h1]
    obtain ⟨-, -, -, htp, heq⟩ := sorted_member_decomp hids hlen hxnd hh hp
    exact ⟨heq, htp⟩
  have hlast : lastHit (fun h : PigRow => h.ident.map Prod.fst)
      (fun h : PigRow => h.y) cid (S.take (i + 1)) =
      (((S.take (i + 1)).filter
        (fun h => decide (h.ident.map Prod.fst = some cid))).filterMap
        (fun h : PigRow => h.y)).getLast? := rfl
  set P := (S.take (i + 1)).filter
    (fun h => decide (h.ident.map Prod.fst = some cid)) with hPdef
  have hA : ∀ h : PigRow, h ∈ P ↔
      h ∈ S ∧ h.ident.map Prod.fst = some cid ∧ h.x ≤ g.x := by
    intro h
    constructor
    · intro hP
      rw [hPdef, List.mem_filter, decide_eq_true_eq] at hP
      obtain ⟨htake, hkey⟩ := hP
      refine ⟨List.mem_of_mem_take htake, hkey, ?_⟩
      obtain ⟨⟨j, hj⟩, hjget⟩ := List.mem_iff_get.1 htake
      have hjlt : j < i + 1 :=
        lt_of_lt_of_le hj (by rw [List.length_take]; exact min_le_left _ _)
      have hjS : j < S.length := by
        rw [List.length_take] at hj
        exact lt_of_lt_of_le hj (min_le_right _ _)
      have hget : S.get ⟨j, hjS⟩ = h := by
        rw [← hjget]
        simp only [List.get_eq_getElem]
        exact List.getElem_take' S hjS hjlt
      rcases Nat.lt_or_ge j i with hlt | hge
      · have hle := List.pairwise_iff_get.1 hpair ⟨j, hjS⟩ ⟨i, hi⟩ hlt
        rw [hget] at hle
        exact lePig_x (by rw [hkey, hkg]) hle
      · have hji : j = i := Nat.le_antisymm (Nat.lt_succ_iff.1 hjlt) hge
        subst hji
        have hgh : h = g := by rw [hgdef, ← hget]
        rw [hgh]
    · rintro ⟨hmem, hkey, hx⟩
      obtain ⟨⟨j, hjS⟩, hget⟩ := List.mem_iff_get.1 hmem
      have hji : j ≤ i := by
        by_contra hgt
        push_neg at hgt
        have hle := List.pairwise_iff_get.1 hpair ⟨i, hi⟩ ⟨j, hjS⟩ hgt
        have hxg : g.x ≤ h.x := by
          refine lePig_x (by rw [hkg, hkey]) ?_
          rw [hgdef, ← hget]
          exact hle
        have hxeq : h.x = g.x := le_antisymm hx hxg
        have hh1 := (hU h hmem hkey).1
        have hg1 := (hU g hgS hkg).1
        have hhg : h = g := by rw [hh1, hg1, hxeq]
        have hfin : (⟨i, hi⟩ : Fin S.length) = ⟨j, hjS⟩ :=
          hSnd.get_inj_iff.1 (by rw [← hgdef, hget, hhg])
        have : i = j := congrArg Fin.val hfin
        omega
      have hjt : j < (S.take (i + 1)).length := by
        rw [List.length_take]
        exact lt_min (Nat.lt_succ_of_le hji) hjS
      have htake : h ∈ S.take (i + 1) := by
        rw [← hget]
        have he : (S.take (i + 1)).get ⟨j, hjt⟩ = S.get ⟨j, hjS⟩ := by
          simp only [List.get_eq_getElem]
          exact (List.getElem_take' S hjS (Nat.lt_succ_of_le hji)).symm
        rw [← he]
        exact List.get_mem _ _ _
      rw [hPdef, List.mem_filter]
      exact ⟨htake, by rw [decide_eq_true_eq]; exact hkey⟩
  have hPsub : P.Sublist S := by
    rw [hPdef]
    exact (List.filter_sublist _).trans (List.take_sublist _ _)
  have hPpair : P.Pairwise (fun a b => lePig a b = true) :=
    List.Pairwise.sublist hPsub hpair
  have hPnd : P.Nodup := List.Nodup.sublist hPsub hSnd
  have hPx : P.Pairwise (fun a b : PigRow => a.x < b.x) := by
    refine List.Pairwise.imp_of_mem ?_ (hPpair.and hPnd)
    intro a b ha hb hab
    have hka := ((hA a).1 ha).2.1
    have hkb := ((hA b).1 hb).2.1
    have hle : a.x ≤ b.x := lePig_x (by rw [hka, hkb]) hab.1
    rcases lt_or_eq_of_le hle with hlt | heq
    · exact hlt
    · exfalso
      apply hab.2
      rw [(hU a ((hA a).1 ha).1 hka).1, (hU b ((hA b).1 hb).1 hkb).1, heq]
  set xs := P.map (fun h : PigRow => h.x) with hxsdef
  have hval : P.filterMap (fun h : PigRow => h.y) = xs.filterMap (sampleAt cr) := by
    rw [hxsdef, List.filterMap_map]
    refine List.filterMap_congr ?_
    intro h hh
    have hk := ((hA h).1 hh).2.1
    have hm := ((hA h).1 hh).1
    have hy := congrArg PigRow.y (hU h hm hk).1
    simpa using hy
  have hxs_pair : xs.Pairwise (fun a b : Int => a < b) := by
    rw [hxsdef, List.pairwise_map]
    exact hPx
  have hxs_nd : xs.Nodup := hxs_pair.imp (fun hlt => ne_of_lt hlt)
  have hxs_mem : ∀ x : Int, x ∈ xs ↔
      ((⟨cr.location, cr.week_start, x⟩ : TimePointRow)
        ∈ invTimePoints (rows.flatMap invPoints) ∧ x ≤ g.x) := by
    intro x
    rw [hxsdef, List.mem_map]
    constructor
    · rintro ⟨h, hh, rfl⟩
      have hm := (hA h).1 hh
      exact ⟨(hU h hm.1 hm.2.1).2, hm.2.2⟩
    · rintro ⟨htp, hxle⟩
      have hg0 : (⟨cr.location, cr.week_start, x, some (cid, cr.product),
          none, none⟩ : PigRow) ∈ invTimePointGrid (rows.flatMap invPoints) := by
        refine mem_invTimePointGrid.2 ⟨⟨cr.location, cr.week_start, x⟩, htp,
          idOf cr, hcmem, rfl, rfl, ?_⟩
        simp [idOf, hrid2]
      refine ⟨jFun rows ⟨cr.location, cr.week_start, x, some (cid, cr.product),
        none, none⟩, ?_, ?_⟩
      · refine (hA _).2 ⟨?_, ?_, ?_⟩
        · rw [hSdef, mem_sortValues, invJoined_eq hids hlen hxnd]
          exact List.mem_map.2 ⟨_, hg0, rfl⟩
        · rw [(jFun_fields rows _).2.2.2]
          rfl
        · rw [(jFun_fields rows _).2.2.1]
          exact hxle
      · exact (jFun_fields rows _).2.2.1
  have hXfst : (cr.X.zip cr.Y).map Prod.fst = cr.X :=
    List.map_fst_zip _ _ (le_of_eq (hlen cr hrmem))
  have hsome : ∀ x : Int, (sampleAt cr x).isSome = decide (x ∈ cr.X) := by
    intro x
    simp only [sampleAt]
    by_cases hx : x ∈ cr.X
    · rw [alookup_isSome_of_mem (by rw [hXfst]; exact hx)]
      simp [hx]
    · rw [alookup_eq_none (by rw [hXfst]; exact hx)]
      simp [hx]
  have hD : xs.filterMap (sampleAt cr) =
      (cr.X.filter (fun x => decide (x ≤ g.x))).filterMap (sampleAt cr) := by
    rw [filterMap_eq_filter_isSome (sampleAt cr) xs,
      filterMap_eq_filter_isSome (sampleAt cr)
        (cr.X.filter (fun x => decide (x ≤ g.x)))]
    congr 1
    rw [List.filter_congr (fun x _ => hsome x),
      List.filter_congr (fun x _ => hsome x)]
    have hself : (cr.X.filter (fun x => decide (x ≤ g.x))).filter
        (fun x => decide (x ∈ cr.X)) = cr.X.filter (fun x => decide (x ≤ g.x)) :=
      List.filter_eq_self.2 (fun a ha => by
        rw [decide_eq_true_eq]
        exact (List.mem_filter.1 ha).1)
    rw [hself]
    have hXpair : cr.X.Pairwise (fun a b : Int => a < b) :=
      List.chain'_iff_pairwise.1 (hchain cr hrmem)
    have h1p : (xs.filter (fun x => decide (x ∈ cr.X))).Pairwise
        (fun a b : Int => a ≤ b) :=
      (List.Pairwise.sublist (List.filter_sublist _) hxs_pair).imp
        (fun hlt => le_of_lt hlt)
    have h2p : (cr.X.filter (fun x => decide (x ≤ g.x))).Pairwise
        (fun a b : Int => a ≤ b) :=
      (List.Pairwise.sublist (List.filter_sublist _) hXpair).imp
        (fun hlt => le_of_lt hlt)
    have h1nd : (xs.filter (fun x => decide (x ∈ cr.X))).Nodup :=
      List.Nodup.sublist (List.filter_sublist _) hxs_nd
    have h2nd : (cr.X.filter (fun x => decide (x ≤ g.x))).Nodup :=
      List.Nodup.sublist (List.filter_sublist _)
        (hXpair.imp (fun hlt => ne_of_lt hlt))
    refine List.eq_of_perm_of_sorted ((List.perm_ext_iff_of_nodup h1nd h2nd).2 ?_)
      h1p h2p
    intro x
    rw [List.mem_filter, List.mem_filter, decide_eq_true_eq, decide_eq_true_eq,
      hxs_mem x]
    constructor
    · rintro ⟨⟨htp, hle⟩, hxX⟩
      exact ⟨hxX, hle⟩
    · rintro ⟨hxX, hle⟩
      refine ⟨⟨?_, hle⟩, hxX⟩
      obtain ⟨y, hy⟩ := mem_zip_left hxX (hlen cr hrmem)
      refine mem_invTimePoints.2 ⟨⟨cr.location, cr.product, cr.inventory_curve_id,
        cr.consumption_profile_curve_id, cr.week_start, x, y⟩, ?_, rfl⟩
      exact List.mem_flatMap.2 ⟨cr, hrmem, mem_invPoints.2 ⟨(x, y), hy, rfl⟩⟩
  have hF : (cr.X.filter (fun x => decide (x ≤ g.x))).filterMap (sampleAt cr) =
      ((cr.X.zip cr.Y).filter (fun q => decide (q.1 ≤ g.x))).map Prod.snd := by
    rw [map_snd_filter_le (by rw [hXfst]; exact hxnd cr hrmem), hXfst]
    rfl
  rw [hlast]
  show (P.filterMap (fun h : PigRow => h.y)).getLast? = _
  rw [hval, hD, hF]
  rfl

/-- C4: in `create_product_inventory`, after the sort by
(INVENTORY_CURVE_ID, X) and the per-INVENTORY_CURVE_ID forward fill of `Y`
(`_qos_metrics.py` lines 84-92), every output grid row belongs to an input
curve, carries `Y` equal to that curve's last sample at or before the row's
minute (the last known value carried forward), and — the boundary validation
guaranteeing a sample at minute 0 — no row is left unfilled.  The hypotheses
are the documented data-model invariants: curve ids are distinct and each
curve's minutes are strictly increasing. -/
theorem forward_fill_last_sample {t : Table InvCurveRow} {out : Table PigRow}
    (hids : (t.rows.map (fun r => r.inventory_curve_id)).Nodup)
    (hchain : ∀ r ∈ t.rows, r.X.Chain' (· < ·))
    (h : create_product_inventory t = .ok out) :
    ∀ g ∈ out.rows, ∃ r ∈ t.rows,
      g.ident = some (r.inventory_curve_id, r.product) ∧
      g.y = lastSampleLE r g.x ∧ g.y.isSome = true := by
  obtain ⟨hrows, hlen, hbd⟩ := create_ok_state h
  have hxnd : ∀ r ∈ t.rows, r.X.Nodup := fun r hr =>
    ((List.chain'_iff_pairwise.1 (hchain r hr)).imp (fun hlt => ne_of_lt hlt))
  intro gout hgout
  rw [hrows] at hgout
  unfold invFilled at hgout
  simp only [] at hgout
  obtain ⟨⟨i, hiO⟩, hgi⟩ := List.mem_iff_get.1 hgout
  have hiF : i < (ffillBy (fun r : PigRow => r.ident.map Prod.fst)
      (fun r : PigRow => r.y) (fun r v => { r with y := v })
      (sortValues lePig (invJoined (t.rows.flatMap invPoints)))).length := by
    have h2 := hiO
    rwa [length_ffillBy] at h2
  have hiS : i <
      (sortValues lePig (invJoined (t.rows.flatMap invPoints))).length := by
    have h2 := hiF
    rwa [length_ffillBy] at h2
  rw [ffillBy_get _ _ _ _ i hiF hiO] at hgi
  rw [ffillBy_get _ _ _ _ i hiS hiF] at hgi
  have hSmem : (sortValues lePig (invJoined (t.rows.flatMap invPoints))).get
      ⟨i, hiS⟩ ∈ sortValues lePig (invJoined (t.rows.flatMap invPoints)) :=
    List.get_mem _ _ _
  have hSmem2 : (sortValues lePig (invJoined (t.rows.flatMap invPoints))).get
      ⟨i, hiS⟩ ∈ (invTimePointGrid (t.rows.flatMap invPoints)).map
        (jFun t.rows) := by
    rw [← invJoined_eq hids hlen hxnd]
    exact mem_sortValues.1 hSmem
  obtain ⟨g0, hg0, hj⟩ := List.mem_map.1 hSmem2
  obtain ⟨tp, htp, c, hcmem, hcl, hcw, hg0eq⟩ := mem_invTimePointGrid.1 hg0
  have hident : ((sortValues lePig (invJoined (t.rows.flatMap invPoints))).get
      ⟨i, hiS⟩).ident = some (c.inventory_curve_id, c.product) := by
    rw [← hj, (jFun_fields t.rows g0).2.2.2, hg0eq]
  obtain ⟨hrmem, hrid, -, htpx, heq⟩ :=
    sorted_member_decomp hids hlen hxnd hSmem hident
  have hlh := lastHit_sorted hids hlen hchain hiS hident
  have hgy : gout.y = (((sortValues lePig (invJoined
      (t.rows.flatMap invPoints))).get ⟨i, hiS⟩).ident.map Prod.fst).bind
      (fun k => lastHit (fun r : PigRow => r.ident.map Prod.fst)
        (fun r : PigRow => r.y) k
        ((sortValues lePig (invJoined (t.rows.flatMap invPoints))).take
          (i + 1))) := by
    rw [← hgi]
  have hgid : gout.ident = ((sortValues lePig (invJoined
      (t.rows.flatMap invPoints))).get ⟨i, hiS⟩).ident := by
    rw [← hgi]
  have hgx : gout.x = ((sortValues lePig (invJoined
      (t.rows.flatMap invPoints))).get ⟨i, hiS⟩).x := by
    rw [← hgi]
  have hkey : ((sortValues lePig (invJoined (t.rows.flatMap invPoints))).get
      ⟨i, hiS⟩).ident.map Prod.fst = some c.inventory_curve_id := by
    rw [hident]
    rfl
  have hyls : gout.y =
      lastSampleLE (rowOf t.rows c.inventory_curve_id) gout.x := by
    rw [hgy, hkey, Option.some_bind, hlh, hgx]
  have hident2 : gout.ident =
      some ((rowOf t.rows c.inventory_curve_id).inventory_curve_id,
        (rowOf t.rows c.inventory_curve_id).product) := by
    rw [hgid, congrArg PigRow.ident heq, hrid]
  have hx0 : (0 : Int) ≤ gout.x := by
    rw [hgx]
    obtain ⟨p, hp, htpeq⟩ := mem_invTimePoints.1 htpx
    have hxp : ((sortValues lePig (invJoined (t.rows.flatMap invPoints))).get
        ⟨i, hiS⟩).x = p.x := congrArg TimePointRow.x htpeq
    rw [hxp]
    obtain ⟨r2, hr2, hpr2⟩ := List.mem_flatMap.1 hp
    have hzip := (invPoints_fields hpr2).2.2.2.2.2
    exact min?_le_of_mem (hbd r2 hr2).1 (List.of_mem_zip hzip).1
  have h0mem : (0 : Int) ∈ (rowOf t.rows c.inventory_curve_id).X :=
    min?_mem_int (hbd _ hrmem).1
  obtain ⟨y0, hy0⟩ := mem_zip_left h0mem (hlen _ hrmem)
  have hfil : ((0 : Int), y0) ∈ ((rowOf t.rows c.inventory_curve_id).X.zip
      (rowOf t.rows c.inventory_curve_id).Y).filter
      (fun q => decide (q.1 ≤ gout.x)) := by
    rw [List.mem_filter]
    exact ⟨hy0, by rw [decide_eq_true_eq]; exact hx0⟩
  have hsome : (lastSampleLE (rowOf t.rows c.inventory_curve_id)
      gout.x).isSome = true := by
    unfold lastSampleLE
    exact List.getLast?_isSome.2
      (List.ne_nil_of_mem (List.mem_map_of_mem Prod.snd hfil))
  exact ⟨rowOf t.rows c.inventory_curve_id, hrmem, hident2, hyls,
    by rw [hyls]; exact hsome⟩

/-- A one-curve inventory table exercising the forward fill. -/
def invC4 : Table InvCurveRow :=
  ⟨requiredColsInv, [⟨"A", "P", 1, 5, "W", [0, 10079], [3, 4]⟩]⟩

/-- The grid `create_product_inventory` returns for `invC4`. -/
def outC4 : Table PigRow :=
  ⟨["LOCATION", "WEEK_START", "X", "INVENTORY_CURVE_ID", "PRODUCT",
      "CONSUMPTION_PROFILE_CURVE_ID", "Y"],
    [⟨"A", "W", 0, some (1, "P"), some 5, some 3⟩,
     ⟨"A", "W", 10079, some (1, "P"), some 5, some 4⟩]⟩

theorem forward_fill_last_sample_witness :
    ∃ r ∈ invC4.rows,
      (⟨"A", "W", 10079, some (1, "P"), some 5, some 4⟩ : PigRow).ident =
        some (r.inventory_curve_id, r.product) ∧
      (⟨"A", "W", 10079, some (1, "P"), some 5, some 4⟩ : PigRow).y =
        lastSampleLE r (⟨"A", "W", 10079, some (1, "P"), some 5,
          some 4⟩ : PigRow).x ∧
      (⟨"A", "W", 10079, some (1, "P"), some 5, some 4⟩ : PigRow).y.isSome
        = true :=
  forward_fill_last_sample (by decide)
    (by
      intro r hr
      rcases List.mem_singleton.1 hr with rfl
      exact List.chain'_cons.2 ⟨by decide, List.chain'_singleton _⟩)
    (by decide : create_product_inventory invC4 = .ok outC4) _
    (by decide : (⟨"A", "W", 10079, some (1, "P"), some 5, some 4⟩ : PigRow)
      ∈ outC4.rows)

/-! ### C2: the PA_RATIO range -/

/-- Two inventory curves for the same product at the same
(location, week): the documented boundary invariant holds, yet PA_RATIO
exceeds 1. -/
def invC2 : Table InvCurveRow :=
  ⟨requiredColsInv, [⟨"A", "P", 1, 5, "W", [0, 10079], [5, 5]⟩,
                     ⟨"A", "P", 2, 5, "W", [0, 10079], [5, 5]⟩]⟩

/-- A time point grid that also contains a location absent from the curves. -/
def tpgC2 : Table TpgRow :=
  ⟨requiredColsTpg, [⟨"A", 5, "W", 0⟩, ⟨"A", 5, "W", 10079⟩, ⟨"B", 6, "W", 0⟩]⟩

/-- The product inventory grid `create_product_inventory` builds from
`invC2`. -/
def pigC2 : Table PigRow :=
  ⟨["LOCATION", "WEEK_START", "X", "INVENTORY_CURVE_ID", "PRODUCT",
      "CONSUMPTION_PROFILE_CURVE_ID", "Y"],
    [⟨"A", "W", 0, some (1, "P"), some 5, some 5⟩,
     ⟨"A", "W", 10079, some (1, "P"), some 5, some 5⟩,
     ⟨"A", "W", 0, some (2, "P"), some 5, some 5⟩,
     ⟨"A", "W", 10079, some (2, "P"), some 5, some 5⟩]⟩

/-- The product availability table computed from `pigC2` and `tpgC2`. -/
def outC2 : Table ParRow :=
  ⟨["LOCATION", "CONSUMPTION_PROFILE_CURVE_ID", "WEEK_START", "X", "PA_RATIO"],
    [⟨"A", 5, "W", 0, some 2⟩, ⟨"A", 5, "W", 10079, some 2⟩,
     ⟨"B", 6, "W", 0, none⟩]⟩

/-- The post-call state of `pigC2` (the in-place PRODUCT_IN_STOCK column). -/
def stC2 : Table (PigRow × ℚ) :=
  ⟨["LOCATION", "WEEK_START", "X", "INVENTORY_CURVE_ID", "PRODUCT",
      "CONSUMPTION_PROFILE_CURVE_ID", "Y", "PRODUCT_IN_STOCK"],
    [(⟨"A", "W", 0, some (1, "P"), some 5, some 5⟩, 1),
     (⟨"A", "W", 10079, some (1, "P"), some 5, some 5⟩, 1),
     (⟨"A", "W", 0, some (2, "P"), some 5, some 5⟩, 1),
     (⟨"A", "W", 10079, some (2, "P"), some 5, some 5⟩, 1)]⟩

/-- C2 fails as stated: with every curve satisfying the boundary invariant
(minutes 0 and 10079 present), the PRODUCT_IN_STOCK sum counts grid rows
while TOTAL_PRODUCT_COUNT counts distinct products, so a product listed
under two inventory curve ids yields PA_RATIO = 2 > 1; and a grid
(location, week) with no inventory rows yields a null PA_RATIO. -/
theorem pa_ratio_counterexample :
    (∀ r ∈ invC2.rows, r.X.min? = some 0 ∧ r.X.max? = some 10079) ∧
    create_product_inventory invC2 = .ok pigC2 ∧
    calc_product_availability_ratio pigC2 tpgC2 = .ok (outC2, stC2) ∧
    (∃ w ∈ outC2.rows, ∃ v, w.pa = some v ∧ 1 < v) ∧
    (∃ w ∈ outC2.rows, w.pa = none) := by
  have hAB : ("A" : String) = "B" ↔ False := by simp
  have hBA : ("B" : String) = "A" ↔ False := by simp
  refine ⟨by decide, by decide, ?_, ?_, ?_⟩
  · unfold calc_product_availability_ratio
    norm_num [parFilled, parMerged, parData, parInStock, parStock,
      parDistinctProducts, groupSum, groupNunique, groupKeys, dropDuplicates,
      dropDupGo, alookup, PigRow.inStock, PigRow.product, pigC2, tpgC2,
      outC2, stC2, List.filterMap_cons, sortValues, insertSorted, leLWX,
      ffillBy, ffillGo, hAB, hBA, requiredColsTpg, requiredColsInv, eqAsSets]
  · exact ⟨⟨"A", 5, "W", 0, some 2⟩, by decide, 2, rfl, by norm_num⟩
  · exact ⟨⟨"B", 6, "W", 0, none⟩, by decide, rfl⟩


/-! ### The corrected PA_RATIO bounds -/

theorem calc_par_ok_full {pig : Table PigRow} {tpg : Table TpgRow}
    {out2 : Table ParRow × Table (PigRow × ℚ)}
    (h : calc_product_availability_ratio pig tpg = .ok out2) :
    out2.1.rows = parFilled pig.rows tpg.rows ∧
    ((parDistinctProducts pig.rows).map Prod.fst).Nodup ∧
    (tpg.rows.map (fun t => (t.location, t.week_start, t.x))).Nodup ∧
    ((parData pig.rows).map (fun d => (d.location, d.week_start, d.x))).Nodup := by
  unfold calc_product_availability_ratio at h
  split at h
  · cases h
  · split at h
    · cases h
    · try simp only [] at h
      split at h
      · cases h
      · rename_i hpd
        try simp only [] at h
        split at h
        · cases h
        · rename_i hk
          have hks := not_not.1 hk
          refine ⟨?_, not_not.1 hpd, hks.1, hks.2⟩
          rw [← Except.ok.inj h]

theorem sum_zero_one_le {l : List ℚ} (h : ∀ v ∈ l, v = 0 ∨ v = 1) :
    0 ≤ l.sum ∧ l.sum ≤ (l.length : ℚ) := by
  induction l with
  | nil => simp
  | cons a as ih =>
    obtain ⟨h1, h2⟩ := ih (fun v hv => h v (List.mem_cons_of_mem _ hv))
    have ha := h a (List.mem_cons_self _ _)
    rw [List.sum_cons, List.length_cons]
    push_cast
    rcases ha with rfl | rfl
    · exact ⟨by linarith, by linarith⟩
    · exact ⟨by linarith, by linarith⟩

theorem inStock_zero_or_one (r : PigRow) : r.inStock = 0 ∨ r.inStock = 1 := by
  unfold PigRow.inStock
  cases hy : r.y with
  | none => exact Or.inl rfl
  | some v =>
    show (if 1 ≤ v then (1 : ℚ) else 0) = 0 ∨ (if 1 ≤ v then (1 : ℚ) else 0) = 1
    by_cases h1 : 1 ≤ v
    · rw [if_pos h1]
      exact Or.inr rfl
    · rw [if_neg h1]
      exact Or.inl rfl

theorem map_fst_groupSum {ρ κ : Type} [DecidableEq κ] (keyf : ρ → κ)
    (valf : ρ → Option ℚ) (rows : List ρ) :
    (groupSum keyf valf rows).map Prod.fst = groupKeys keyf rows := by
  unfold groupSum
  rw [List.map_map]
  have hid : (Prod.fst ∘ fun k => (k,
      ((rows.filter (fun r => keyf r = k)).filterMap valf).sum)) = id := rfl
  rw [hid, List.map_id]

theorem map_fst_groupNunique {ρ κ α : Type} [DecidableEq κ] [DecidableEq α]
    (keyf : ρ → κ) (valf : ρ → Option α) (rows : List ρ) :
    (groupNunique keyf valf rows).map Prod.fst = groupKeys keyf rows := by
  unfold groupNunique
  rw [List.map_map]
  have hid : (Prod.fst ∘ fun k => (k, (dropDuplicates
      ((rows.filter (fun r => keyf r = k)).filterMap valf)).length)) = id := rfl
  rw [hid, List.map_id]

theorem alookup_groupSum {ρ κ : Type} [DecidableEq κ] (keyf : ρ → κ)
    (valf : ρ → Option ℚ) (rows : List ρ) {k : κ} (hk : k ∈ rows.map keyf) :
    alookup k (groupSum keyf valf rows) =
      some ((rows.filter (fun r => keyf r = k)).filterMap valf).sum := by
  refine alookup_eq_some_of_mem ?_ ?_
  · rw [map_fst_groupSum]
    exact nodup_dropDuplicates _
  · exact List.mem_map.2 ⟨k, mem_dropDuplicates.2 hk, rfl⟩

theorem alookup_groupNunique {ρ κ α : Type} [DecidableEq κ] [DecidableEq α]
    (keyf : ρ → κ) (valf : ρ → Option α) (rows : List ρ) {k : κ}
    (hk : k ∈ rows.map keyf) :
    alookup k (groupNunique keyf valf rows) =
      some (dropDuplicates
        ((rows.filter (fun r => keyf r = k)).filterMap valf)).length := by
  refine alookup_eq_some_of_mem ?_ ?_
  · rw [map_fst_groupNunique]
    exact nodup_dropDuplicates _
  · exact List.mem_map.2 ⟨k, mem_dropDuplicates.2 hk, rfl⟩

theorem filterMap_nodup_of_pairwise {ρ α : Type} {f : ρ → Option α} :
    ∀ {l : List ρ}, l.Pairwise (fun a b => f a ≠ f b) → (l.filterMap f).Nodup := by
  intro l
  induction l with
  | nil => intro _; simp
  | cons a as ih =>
    intro hp
    rw [List.pairwise_cons] at hp
    obtain ⟨hne, hp2⟩ := hp
    cases hf : f a with
    | none => simpa [List.filterMap_cons, hf] using ih hp2
    | some b =>
      rw [List.filterMap_cons]
      rw [hf]
      refine List.nodup_cons.2 ⟨?_, ih hp2⟩
      intro hmem
      obtain ⟨c, hc, hfc⟩ := List.mem_filterMap.1 hmem
      exact hne c hc (by rw [hf, hfc])

theorem filterMap_allSome_length {ρ α : Type} {f : ρ → Option α} :
    ∀ {l : List ρ}, (∀ a ∈ l, (f a).isSome = true) →
      (l.filterMap f).length = l.length := by
  intro l
  induction l with
  | nil => intro _; rfl
  | cons a as ih =>
    intro h
    cases hf : f a with
    | none =>
      have h2 := h a (List.mem_cons_self _ _)
      rw [hf] at h2
      cases h2
    | some b =>
      simp [List.filterMap_cons, hf,
        ih (fun x hx => h x (List.mem_cons_of_mem _ hx))]

/-- The grouped forward fill of `PA_RATIO` leaves already-present values in
place: if every row is non-null and bounded, so is every output row. -/
theorem ffillGo_pa_some {Q : ℚ → Prop} :
    ∀ (l : List ParRow) (acc : List ((String × String) × ℚ)),
      (∀ r ∈ l, ∃ v, r.pa = some v ∧ Q v) →
      ∀ w ∈ ffillGo (fun r : ParRow => some (r.location, r.week_start))
        (fun r : ParRow => r.pa) (fun r v => { r with pa := v }) acc l,
        ∃ v, w.pa = some v ∧ Q v := by
  intro l
  induction l with
  | nil => intro acc _ w hw; cases hw
  | cons r rest ih =>
    intro acc hall w hw
    obtain ⟨v, hv, hQ⟩ := hall r (List.mem_cons_self _ _)
    simp only [ffillGo, hv] at hw
    rcases List.mem_cons.1 hw with rfl | hw2
    · exact ⟨v, rfl, hQ⟩
    · exact ih _ (fun x hx => hall x (List.mem_cons_of_mem _ hx)) w hw2

theorem parStock_filter (pig : List PigRow) (k : String × String × Int) :
    (parStock pig).filter
        (fun q : PigRow × ℚ => (q.1.location, q.1.week_start, q.1.x) = k) =
      (pig.filter (fun r => (r.location, r.week_start, r.x) = k)).map
        (fun r => (r, r.inStock)) := by
  unfold parStock
  rw [List.filter_map]
  rfl

theorem filterMap_some_snd (G : List PigRow) :
    (G.map (fun r => (r, r.inStock))).filterMap
      (fun p : PigRow × ℚ => some p.2) = G.map PigRow.inStock := by
  rw [List.filterMap_map]
  exact congrFun (List.filterMap_eq_map PigRow.inStock) G

/-- Rows of one (location, week, minute) group have pairwise distinct,
non-null products, so the group has at most as many rows as the
(location, week) has distinct products. -/
theorem group_card_le_nunique {pig : List PigRow}
    (hsomep : ∀ p ∈ pig, (PigRow.product p).isSome = true)
    (hprod : (pig.map (fun p =>
      (p.location, p.week_start, p.x, PigRow.product p))).Nodup)
    (loc week : String) (x : Int) :
    (pig.filter
        (fun r => (r.location, r.week_start, r.x) = (loc, week, x))).length ≤
      (dropDuplicates ((pig.filter (fun r =>
        (r.week_start, r.location) = (week, loc))).filterMap
          PigRow.product)).length := by
  have hGsub : (pig.filter (fun r =>
      (r.location, r.week_start, r.x) = (loc, week, x))).Sublist pig :=
    List.filter_sublist _
  have hGsome : ∀ p ∈ pig.filter (fun r =>
      (r.location, r.week_start, r.x) = (loc, week, x)),
      (PigRow.product p).isSome = true :=
    fun p hp => hsomep p (hGsub.subset hp)
  have hlenA : ((pig.filter (fun r =>
      (r.location, r.week_start, r.x) = (loc, week, x))).filterMap
        PigRow.product).length =
      (pig.filter (fun r =>
        (r.location, r.week_start, r.x) = (loc, week, x))).length :=
    filterMap_allSome_length hGsome
  have hpairG : (pig.filter (fun r =>
      (r.location, r.week_start, r.x) = (loc, week, x))).Pairwise
      (fun a b => PigRow.product a ≠ PigRow.product b) := by
    have hpw : pig.Pairwise (fun a b =>
        (a.location, a.week_start, a.x, PigRow.product a) ≠
        (b.location, b.week_start, b.x, PigRow.product b)) :=
      List.pairwise_map.1 hprod
    refine List.Pairwise.imp_of_mem ?_ (List.Pairwise.sublist hGsub hpw)
    intro a b ha hb hne hpe
    apply hne
    have hka : (a.location, a.week_start, a.x) = (loc, week, x) :=
      of_decide_eq_true (List.mem_filter.1 ha).2
    have hkb : (b.location, b.week_start, b.x) = (loc, week, x) :=
      of_decide_eq_true (List.mem_filter.1 hb).2
    have h4 := hka.trans hkb.symm
    have h1 : a.location = b.location := congrArg (fun q => q.1) h4
    have h2 : a.week_start = b.week_start := congrArg (fun q => q.2.1) h4
    have h3 : a.x = b.x := congrArg (fun q => q.2.2) h4
    rw [h1, h2, h3, hpe]
  have hAnd : ((pig.filter (fun r =>
      (r.location, r.week_start, r.x) = (loc, week, x))).filterMap
        PigRow.product).Nodup :=
    filterMap_nodup_of_pairwise hpairG
  have hsubset : ∀ a ∈ (pig.filter (fun r =>
      (r.location, r.week_start, r.x) = (loc, week, x))).filterMap
        PigRow.product,
      a ∈ dropDuplicates ((pig.filter (fun r =>
        (r.week_start, r.location) = (week, loc))).filterMap PigRow.product) := by
    intro a ha
    obtain ⟨p, hp, hfp⟩ := List.mem_filterMap.1 ha
    refine mem_dropDuplicates.2 (List.mem_filterMap.2 ⟨p, ?_, hfp⟩)
    rw [List.mem_filter]
    obtain ⟨hpm, hpk⟩ := List.mem_filter.1 hp
    refine ⟨hpm, ?_⟩
    rw [decide_eq_true_eq]
    have h4 := of_decide_eq_true hpk
    have h1 : p.location = loc := congrArg (fun q => q.1) h4
    have h2 : p.week_start = week := congrArg (fun q => q.2.1) h4
    rw [h1, h2]
  rw [← hlenA]
  exact List.Subperm.length_le (List.subperm_of_subset hAnd hsubset)


/-- Under per-minute product uniqueness and grid coverage, every merged
PA_RATIO is a present value in [0, 1]. -/
theorem parMerged_pa_bounds {pig : List PigRow} {tpg : List TpgRow}
    (hsome : ∀ p ∈ pig, (PigRow.product p).isSome = true)
    (hprod : (pig.map (fun p =>
      (p.location, p.week_start, p.x, PigRow.product p))).Nodup)
    (hndd : ((parData pig).map (fun d => (d.location, d.week_start, d.x))).Nodup)
    (hcover : ∀ t ∈ tpg, ∃ p ∈ pig,
      p.location = t.location ∧ p.week_start = t.week_start ∧ p.x = t.x) :
    ∀ w ∈ parMerged pig tpg, ∃ v, w.pa = some v ∧ 0 ≤ v ∧ v ≤ 1 := by
  intro w hw
  unfold parMerged at hw
  simp only [] at hw
  obtain ⟨t, ht, rfl⟩ := List.mem_map.1 hw
  obtain ⟨p, hp, hpl, hpw, hpx⟩ := hcover t ht
  have hkmem : (t.location, t.week_start, t.x) ∈ (parStock pig).map
      (fun q : PigRow × ℚ => (q.1.location, q.1.week_start, q.1.x)) := by
    refine List.mem_map.2 ⟨(p, p.inStock), ?_, ?_⟩
    · show (p, p.inStock) ∈ pig.map (fun r => (r, r.inStock))
      exact List.mem_map.2 ⟨p, hp, rfl⟩
    · simp [hpl, hpw, hpx]
  have hgk : (t.location, t.week_start, t.x) ∈ groupKeys
      (fun q : PigRow × ℚ => (q.1.location, q.1.week_start, q.1.x))
      (parStock pig) :=
    mem_dropDuplicates.2 hkmem
  have hsmem : ((t.location, t.week_start, t.x),
      (((parStock pig).filter (fun q : PigRow × ℚ =>
        (q.1.location, q.1.week_start, q.1.x) =
          (t.location, t.week_start, t.x))).filterMap
        (fun q : PigRow × ℚ => some q.2)).sum) ∈ parInStock pig := by
    show _ ∈ (groupKeys (fun q : PigRow × ℚ =>
      (q.1.location, q.1.week_start, q.1.x)) (parStock pig)).map _
    exact List.mem_map.2 ⟨(t.location, t.week_start, t.x), hgk, rfl⟩
  have hdmem : (⟨t.location, t.week_start, t.x,
      (((parStock pig).filter (fun q : PigRow × ℚ =>
        (q.1.location, q.1.week_start, q.1.x) =
          (t.location, t.week_start, t.x))).filterMap
        (fun q : PigRow × ℚ => some q.2)).sum,
      alookup (t.week_start, t.location) (parDistinctProducts pig),
      (alookup (t.week_start, t.location) (parDistinctProducts pig)).map
        (fun n => (((parStock pig).filter (fun q : PigRow × ℚ =>
          (q.1.location, q.1.week_start, q.1.x) =
            (t.location, t.week_start, t.x))).filterMap
          (fun q : PigRow × ℚ => some q.2)).sum / (n : ℚ))⟩ : ParDataRow)
      ∈ parData pig := by
    show _ ∈ (parInStock pig).map _
    exact List.mem_map.2 ⟨_, hsmem, rfl⟩
  have hwl : (t.week_start, t.location) ∈ pig.map
      (fun r : PigRow => (r.week_start, r.location)) :=
    List.mem_map.2 ⟨p, hp, by rw [hpw, hpl]⟩
  have htot : alookup (t.week_start, t.location) (parDistinctProducts pig) =
      some (dropDuplicates ((pig.filter (fun r : PigRow =>
        (r.week_start, r.location) = (t.week_start, t.location))).filterMap
          PigRow.product)).length :=
    alookup_groupNunique _ _ _ hwl
  have hassoc : alookup (t.location, t.week_start, t.x)
      ((parData pig).map (fun d : ParDataRow =>
        ((d.location, d.week_start, d.x), d.pa))) =
      some ((alookup (t.week_start, t.location) (parDistinctProducts pig)).map
        (fun n => (((parStock pig).filter (fun q : PigRow × ℚ =>
          (q.1.location, q.1.week_start, q.1.x) =
            (t.location, t.week_start, t.x))).filterMap
          (fun q : PigRow × ℚ => some q.2)).sum / (n : ℚ))) := by
    refine alookup_eq_some_of_mem ?_ ?_
    · rw [List.map_map]
      exact hndd
    · exact List.mem_map.2 ⟨_, hdmem, rfl⟩
  have hS0 : (((parStock pig).filter (fun q : PigRow × ℚ =>
      (q.1.location, q.1.week_start, q.1.x) =
        (t.location, t.week_start, t.x))).filterMap
      (fun q : PigRow × ℚ => some q.2)).sum =
      ((pig.filter (fun r : PigRow => (r.location, r.week_start, r.x) =
        (t.location, t.week_start, t.x))).map PigRow.inStock).sum := by
    rw [parStock_filter, filterMap_some_snd]
  have h01 : ∀ v ∈ (pig.filter (fun r : PigRow =>
      (r.location, r.week_start, r.x) = (t.location, t.week_start, t.x))).map
        PigRow.inStock, v = 0 ∨ v = 1 := by
    intro v hv
    obtain ⟨r, hr, rfl⟩ := List.mem_map.1 hv
    exact inStock_zero_or_one r
  have hb := sum_zero_one_le h01
  have hcard := group_card_le_nunique hsome hprod t.location t.week_start t.x
  have hcnt1 : 1 ≤ (dropDuplicates ((pig.filter (fun r : PigRow =>
      (r.week_start, r.location) = (t.week_start, t.location))).filterMap
        PigRow.product)).length := by
    obtain ⟨pv, hpv⟩ := Option.isSome_iff_exists.1 (hsome p hp)
    have hpmem : pv ∈ (pig.filter (fun r : PigRow =>
        (r.week_start, r.location) = (t.week_start, t.location))).filterMap
          PigRow.product := by
      refine List.mem_filterMap.2 ⟨p, ?_, hpv⟩
      rw [List.mem_filter]
      refine ⟨hp, ?_⟩
      rw [decide_eq_true_eq, hpw, hpl]
    have := mem_dropDuplicates.2 hpmem
    exact Nat.succ_le_of_lt (List.length_pos.2 (List.ne_nil_of_mem this))
  have hcntpos : (0 : ℚ) < ((dropDuplicates ((pig.filter (fun r : PigRow =>
      (r.week_start, r.location) = (t.week_start, t.location))).filterMap
        PigRow.product)).length : ℚ) := by
    exact_mod_cast Nat.lt_of_lt_of_le Nat.zero_lt_one hcnt1
  refine ⟨(((parStock pig).filter (fun q : PigRow × ℚ =>
      (q.1.location, q.1.week_start, q.1.x) =
        (t.location, t.week_start, t.x))).filterMap
      (fun q : PigRow × ℚ => some q.2)).sum /
      ((dropDuplicates ((pig.filter (fun r : PigRow =>
        (r.week_start, r.location) = (t.week_start, t.location))).filterMap
          PigRow.product)).length : ℚ), ?_, ?_, ?_⟩
  · show (alookup (t.location, t.week_start, t.x)
      ((parData pig).map (fun d : ParDataRow =>
        ((d.location, d.week_start, d.x), d.pa)))).join = _
    rw [hassoc, htot]
    rfl
  · refine div_nonneg ?_ (le_of_lt hcntpos)
    rw [hS0]
    exact hb.1
  · rw [div_le_one hcntpos, hS0]
    refine le_trans hb.2 ?_
    rw [List.length_map]
    exact_mod_cast hcard


/-- C2, amended: `PA_RATIO` equals (stocked rows at the minute) over
(distinct products of the (location, week)), forward-filled.  It is non-null
and lies in [0, 1] for every output row provided (i) every grid row carries
a non-null PRODUCT, (ii) no product repeats within a
(LOCATION, WEEK_START, X) group — one inventory curve per product — and
(iii) every time point of the grid has at least one inventory row; without
(ii) the ratio exceeds 1 and without (iii) it is null, as
`pa_ratio_counterexample` shows on boundary-valid curves. -/
theorem pa_ratio_bounds {pig : Table PigRow} {tpg : Table TpgRow}
    {out : Table ParRow} {st : Table (PigRow × ℚ)}
    (hsome : ∀ p ∈ pig.rows, (PigRow.product p).isSome = true)
    (hprod : (pig.rows.map (fun p =>
      (p.location, p.week_start, p.x, PigRow.product p))).Nodup)
    (hcover : ∀ t ∈ tpg.rows, ∃ p ∈ pig.rows,
      p.location = t.location ∧ p.week_start = t.week_start ∧ p.x = t.x)
    (h : calc_product_availability_ratio pig tpg = .ok (out, st)) :
    ∀ w ∈ out.rows, ∃ v, w.pa = some v ∧ 0 ≤ v ∧ v ≤ 1 := by
  obtain ⟨hrows, hndpd, hndt, hndd⟩ := calc_par_ok_full h
  have hmerged := parMerged_pa_bounds hsome hprod hndd hcover
  have hrows2 : out.rows = parFilled pig.rows tpg.rows := hrows
  intro w hw
  rw [hrows2] at hw
  unfold parFilled ffillBy at hw
  refine ffillGo_pa_some _ [] ?_ w hw
  intro r hr
  exact hmerged r (mem_sortValues.1 hr)

/-- A one-row product inventory grid for the witness. -/
def pigW2 : Table PigRow :=
  ⟨["LOCATION", "WEEK_START", "X", "INVENTORY_CURVE_ID", "PRODUCT",
      "CONSUMPTION_PROFILE_CURVE_ID", "Y"],
    [⟨"A", "W", 0, some (1, "P"), some 5, some 5⟩]⟩

def tpgW2 : Table TpgRow := ⟨requiredColsTpg, [⟨"A", 5, "W", 0⟩]⟩

/-- The availability table computed from `pigW2` and `tpgW2`. -/
def outW2 : Table ParRow :=
  ⟨["LOCATION", "CONSUMPTION_PROFILE_CURVE_ID", "WEEK_START", "X", "PA_RATIO"],
    [⟨"A", 5, "W", 0, some 1⟩]⟩

def stW2 : Table (PigRow × ℚ) :=
  ⟨["LOCATION", "WEEK_START", "X", "INVENTORY_CURVE_ID", "PRODUCT",
      "CONSUMPTION_PROFILE_CURVE_ID", "Y", "PRODUCT_IN_STOCK"],
    [(⟨"A", "W", 0, some (1, "P"), some 5, some 5⟩, 1)]⟩

theorem pa_ratio_bounds_witness :
    ∃ v, (⟨"A", 5, "W", 0, some 1⟩ : ParRow).pa = some v ∧ 0 ≤ v ∧ v ≤ 1 :=
  pa_ratio_bounds (by decide) (by decide) (by decide)
    (by
      unfold calc_product_availability_ratio
      norm_num [parFilled, parMerged, parData, parInStock, parStock,
        parDistinctProducts, groupSum, groupNunique, groupKeys, dropDuplicates,
        dropDupGo, alookup, PigRow.inStock, PigRow.product, pigW2, tpgW2,
        outW2, stW2, List.filterMap_cons, sortValues, insertSorted, leLWX,
        ffillBy, ffillGo, requiredColsTpg, requiredColsInv, eqAsSets]
      : calc_product_availability_ratio pigW2 tpgW2 = .ok (outW2, stW2))
    _ (by decide)


/-! ### C5: the linear interpolation -/

/-- Two consumption curves in different (location, week) groups. -/
def consC5 : Table ConsCurveRow :=
  ⟨["LOCATION", "CONSUMPTION_PROFILE_CURVE_ID", "WEEK_START", "X", "Y"],
    [⟨"A", 5, "W", [0, 10079], [0, 1]⟩, ⟨"B", 6, "W", [0, 10079], [100, 200]⟩]⟩

def tpgC5 : Table TpgRow :=
  ⟨requiredColsTpg, [⟨"A", 5, "W", 0⟩, ⟨"A", 5, "W", 1⟩, ⟨"A", 5, "W", 2⟩,
    ⟨"B", 6, "W", 9000⟩, ⟨"B", 6, "W", 10079⟩]⟩

def outC5 : Table CciRow :=
  ⟨["LOCATION", "CONSUMPTION_PROFILE_CURVE_ID", "WEEK_START", "X",
      "CONSUMPTION_Y"],
    [⟨"A", 5, "W", 0, some 0⟩, ⟨"A", 5, "W", 1, some 50⟩,
     ⟨"A", 5, "W", 2, some 100⟩, ⟨"B", 6, "W", 9000, some 150⟩,
     ⟨"B", 6, "W", 10079, some 200⟩]⟩

/-- C5 fails as stated: `Series.interpolate(method='linear')` runs over the
whole (LOCATION, WEEK_START, X)-sorted column positionally, ignoring the
curve grouping.  Curve A's missing minute 1 is filled with 50 — interpolated
between A's sample 0 and curve B's sample 200 three positions later — while
the within-group interpolation between A's own samples (0 at minute 0, 1 at
minute 10079) would give 1/10079. -/
theorem interpolation_crosses_groups :
    (∀ r ∈ consC5.rows, r.X.min? = some 0 ∧ r.X.max? = some 10079) ∧
    interpolate_consumption_curves consC5 tpgC5 = .ok outC5 ∧
    (⟨"A", 5, "W", 1, some 50⟩ : CciRow) ∈ outC5.rows ∧
    (50 : ℚ) ≠ 0 + (1 - 0) * ((1 : ℚ) - 0) / ((10079 : ℚ) - 0) := by
  have hAB : ("A" : String) = "B" ↔ False := by simp
  have hBA : ("B" : String) = "A" ↔ False := by simp
  refine ⟨by decide, ?_, by decide, by norm_num⟩
  unfold interpolate_consumption_curves
  norm_num [checkBoundaries, explodeList, explodeConsRow, consPoints,
    consInterp, consSorted, consMerged, sortValues, insertSorted, leLWX,
    interpLin, interpGo, findNextVal, consC5, tpgC5, outC5, hAB, hBA,
    List.filterMap_cons, requiredColsTpg]

theorem interp_ok_state {cons : Table ConsCurveRow} {tpg : Table TpgRow}
    {out : Table CciRow}
    (h : interpolate_consumption_curves cons tpg = .ok out) :
    ∃ ex, explodeList explodeConsRow cons.rows = .ok ex ∧
      out.rows = consInterp ex tpg.rows := by
  unfold interpolate_consumption_curves at h
  cases hb : checkBoundaries (cons.rows.map fun r => r.X) with
  | error e => rw [hb] at h; cases h
  | ok u =>
    cases u
    rw [hb] at h
    cases hx : explodeList explodeConsRow cons.rows with
    | error e => rw [hx] at h; cases h
    | ok ex =>
      rw [hx] at h
      exact ⟨ex, rfl, by rw [← Except.ok.inj h]⟩

/-- C5, amended: the interpolation is positional on the frame sorted by
(LOCATION, WEEK_START, X), with no regard for the curve id: a missing row
`n` whose nearest non-null neighbours in that global order are row `j`
(value `a`) before it and row `k` (value `b`) after it receives
`a + (b - a)·(n - j)/(k - j)` — linear in the row position, not in the
minute, and across group boundaries (see
`interpolation_crosses_groups`).  When rows j..k all belong to one curve
on a contiguous minute grid this coincides with the claimed within-group
interpolation. -/
theorem interpolation_is_positional {cons : Table ConsCurveRow}
    {tpg : Table TpgRow} {out : Table CciRow} {ex : List ConsPoint}
    (hex : explodeList explodeConsRow cons.rows = .ok ex)
    (h : interpolate_consumption_curves cons tpg = .ok out)
    {n j k : Nat} {a b : ℚ}
    (hn : n < (consSorted ex tpg.rows).length)
    (hj : j < (consSorted ex tpg.rows).length)
    (hk : k < (consSorted ex tpg.rows).length)
    (hjn : j < n) (hnk : n < k)
    (hjy : ((consSorted ex tpg.rows).get ⟨j, hj⟩).y = some a)
    (hny : ((consSorted ex tpg.rows).get ⟨n, hn⟩).y = none)
    (hky : ((consSorted ex tpg.rows).get ⟨k, hk⟩).y = some b)
    (hbefore : ∀ m (hm : m < (consSorted ex tpg.rows).length), j < m → m < n →
      ((consSorted ex tpg.rows).get ⟨m, hm⟩).y = none)
    (hafter : ∀ m (hm : m < (consSorted ex tpg.rows).length), n < m → m < k →
      ((consSorted ex tpg.rows).get ⟨m, hm⟩).y = none) :
    ∃ hn2 : n < out.rows.length,
      out.rows.get ⟨n, hn2⟩ =
        ⟨((consSorted ex tpg.rows).get ⟨n, hn⟩).location,
         ((consSorted ex tpg.rows).get ⟨n, hn⟩).consumption_profile_curve_id,
         ((consSorted ex tpg.rows).get ⟨n, hn⟩).week_start,
         ((consSorted ex tpg.rows).get ⟨n, hn⟩).x,
         some (a + (b - a) * ((n : ℚ) - (j : ℚ)) / ((k : ℚ) - (j : ℚ)))⟩ := by
  obtain ⟨ex2, hex2, hrows⟩ := interp_ok_state h
  rw [hex] at hex2
  have hexeq : ex = ex2 := Except.ok.inj hex2
  subst hexeq
  -- the Y column
  have hnl : n < ((consSorted ex tpg.rows).map (fun r => r.y)).length := by
    rw [List.length_map]; exact hn
  have hjl : j < ((consSorted ex tpg.rows).map (fun r => r.y)).length := by
    rw [List.length_map]; exact hj
  have hkl : k < ((consSorted ex tpg.rows).map (fun r => r.y)).length := by
    rw [List.length_map]; exact hk
  have hget : ∀ (m : Nat) (hm : m < ((consSorted ex tpg.rows).map
      (fun r => r.y)).length) (hm2 : m < (consSorted ex tpg.rows).length),
      ((consSorted ex tpg.rows).map (fun r => r.y)).get ⟨m, hm⟩ =
        ((consSorted ex tpg.rows).get ⟨m, hm2⟩).y := by
    intro m hm hm2
    simp [List.get_eq_getElem, List.getElem_map]
  have hprev : prevIn ((consSorted ex tpg.rows).map (fun r => r.y)) n 0 none =
      some (j, a) := by
    have := prevIn_eq_of ((consSorted ex tpg.rows).map (fun r => r.y)) j n 0
      none a hjl (by rw [hget j hjl hj]; exact hjy) hjn
      (fun m hm1 hm2 hm => by
        rw [hget m hm (by rw [List.length_map] at hm; exact hm)]
        exact hbefore m _ hm1 hm2)
    simpa using this
  have hfind : findNextVal (((consSorted ex tpg.rows).map
      (fun r => r.y)).drop (n + 1)) = some (k - (n + 1), b) := by
    have hdl : k - (n + 1) < (((consSorted ex tpg.rows).map
        (fun r => r.y)).drop (n + 1)).length := by
      rw [List.length_drop, List.length_map]
      omega
    refine findNextVal_eq_of _ (k - (n + 1)) b hdl ?_ ?_
    · have : (((consSorted ex tpg.rows).map (fun r => r.y)).drop
          (n + 1)).get ⟨k - (n + 1), hdl⟩ =
          ((consSorted ex tpg.rows).map (fun r => r.y)).get ⟨k, hkl⟩ := by
        simp only [List.get_eq_getElem, List.getElem_drop]
        congr 1
        omega
      rw [this, hget k hkl hk]
      exact hky
    · intro m hm hml
      have hml2 : n + 1 + m < ((consSorted ex tpg.rows).map
          (fun r => r.y)).length := by
        rw [List.length_drop] at hml
        omega
      have : (((consSorted ex tpg.rows).map (fun r => r.y)).drop
          (n + 1)).get ⟨m, hml⟩ =
          ((consSorted ex tpg.rows).map (fun r => r.y)).get
            ⟨n + 1 + m, hml2⟩ := by
        simp only [List.get_eq_getElem, List.getElem_drop]
      rw [this, hget _ hml2 (by rw [List.length_map] at hml2; exact hml2)]
      exact hafter _ _ (by omega) (by omega)
  have hn2 : n < out.rows.length := by
    rw [hrows]
    unfold consInterp
    simp only []
    rw [List.length_map, List.length_zip, length_interpLin, List.length_map,
      min_self]
    exact hn
  refine ⟨hn2, ?_⟩
  have hnz : n < ((consSorted ex tpg.rows).zip (interpLin
      ((consSorted ex tpg.rows).map (fun r => r.y)))).length := by
    rw [List.length_zip, length_interpLin, List.length_map, min_self]
    exact hn
  have hnil : n < (interpLin ((consSorted ex tpg.rows).map
      (fun r => r.y))).length := by
    rw [length_interpLin, List.length_map]
    exact hn
  have hil : (interpLin ((consSorted ex tpg.rows).map
      (fun r => r.y))).get ⟨n, hnil⟩ =
      some (a + (b - a) * ((n : ℚ) - (j : ℚ)) / ((k : ℚ) - (j : ℚ))) := by
    rw [interpLin_get _ n hnl hnil, hget n hnl hn, hny, hprev, hfind]
    have harith : n + (k - (n + 1)) + 1 = k := by omega
    simp [harith]
  have e2 : consInterp ex tpg.rows = ((consSorted ex tpg.rows).zip
      (interpLin ((consSorted ex tpg.rows).map (fun r => r.y)))).map
      (fun p => (⟨p.1.location, p.1.consumption_profile_curve_id,
        p.1.week_start, p.1.x, p.2⟩ : CciRow)) := rfl
  simp only [List.get_eq_getElem] at hil ⊢
  rw [List.getElem_of_eq (hrows.trans e2) hn2, List.getElem_map,
    List.getElem_zip]
  simp only []
  rw [hil]

/-- A single consumption curve for the witness. -/
def consW5 : Table ConsCurveRow :=
  ⟨["LOCATION", "CONSUMPTION_PROFILE_CURVE_ID", "WEEK_START", "X", "Y"],
    [⟨"A", 5, "W", [0, 10079], [0, 1]⟩]⟩

def tpgW5 : Table TpgRow :=
  ⟨requiredColsTpg, [⟨"A", 5, "W", 0⟩, ⟨"A", 5, "W", 1⟩, ⟨"A", 5, "W", 10079⟩]⟩

def exW5 : List ConsPoint :=
  [⟨"A", 5, "W", 0, 0⟩, ⟨"A", 5, "W", 10079, 1⟩]

def outW5 : Table CciRow :=
  ⟨["LOCATION", "CONSUMPTION_PROFILE_CURVE_ID", "WEEK_START", "X",
      "CONSUMPTION_Y"],
    [⟨"A", 5, "W", 0, some 0⟩, ⟨"A", 5, "W", 1, some (1 / 2)⟩,
     ⟨"A", 5, "W", 10079, some 1⟩]⟩

theorem interpolation_is_positional_witness :
    ∃ hn2 : 1 < outW5.rows.length,
      outW5.rows.get ⟨1, hn2⟩ =
        (⟨"A", 5, "W", 1,
          some ((0 : ℚ) + ((1 : ℚ) - (0 : ℚ)) *
            (((1 : Nat) : ℚ) - ((0 : Nat) : ℚ)) /
            (((2 : Nat) : ℚ) - ((0 : Nat) : ℚ)))⟩ : CciRow) := by
  obtain ⟨hn2, hrow⟩ := @interpolation_is_positional consW5 tpgW5 outW5 exW5
    (by decide)
    (by
      unfold interpolate_consumption_curves
      norm_num [checkBoundaries, explodeList, explodeConsRow, consPoints,
        consInterp, consSorted, consMerged, sortValues, insertSorted, leLWX,
        interpLin, interpGo, findNextVal, consW5, tpgW5, outW5,
        List.filterMap_cons, requiredColsTpg])
    1 0 2 0 1
    (by decide) (by decide) (by decide) (by decide) (by decide)
    (by decide) (by decide) (by decide)
    (by intro m hm h1 h2; omega) (by intro m hm h1 h2; omega)
  exact ⟨hn2, by rw [hrow]; rfl⟩

end QosSpec
